import Mathlib

set_option maxRecDepth 40000

/-!
Verification development for the fs-browser sandboxed filesystem HTTP gateway.

The repository exposes a restricted set of filesystem operations over HTTP,
confined to one base directory.  This file gives a shallow embedding of the
gateway's core (`plugin/fs-handlers.js`: path resolver, body decoder, route
handlers) and of the two entry points (the `withfs` CLI server and the Vite
middleware), and proves properties of that embedding.

Modelling conventions:
* JS strings and Node `Buffer`s are modelled as `List Char` (`JStr`); byte
  sequences are identified with their character sequences, so the `utf8`
  encode/decode pair is the identity.
* JS numbers appearing in JSON are restricted to integers (`Int`); JSON
  documents with fractional numbers are outside the model's domain.
* `undefined` is modelled as `Option.none` where it can occur (absent query
  parameters, absent object fields).
* Thrown JS exceptions are modelled with `Except JsErr`.
-/

/-- A JS string (also used for Node `Buffer` contents), as a list of characters. -/
abbrev JStr := List Char

namespace FsBrowser

/-! ## Path resolver (`createPathResolver`, fs-handlers.js lines 32-42) -/
/-- Does the string start with a `/`?  (JS `filePath.startsWith('/')`.) -/
def startsWithSlash : JStr → Bool
  | [] => false
  | c :: _ => decide (c = '/')

/-- Split a string on `/` separators, keeping empty segments
(the segment decomposition underlying Node's lexical path normalization). -/
def splitSegs : JStr → List JStr
  | [] => [[]]
  | c :: rest =>
    if c = '/' then [] :: splitSegs rest
    else
      match splitSegs rest with
      | s :: ss => (c :: s) :: ss
      | [] => [[c]]

/-- One step of Node's lexical normalization of an absolute path:
empty and `.` segments are dropped, `..` pops the previous segment
(and is dropped at the root), anything else is kept. -/
def normStep (stack : List JStr) (seg : JStr) : List JStr :=
  if seg = [] ∨ seg = ['.'] then stack
  else if seg = ['.', '.'] then stack.dropLast
  else stack ++ [seg]

/-- Lexically normalize a segment list (left to right). -/
def normSegs (l : List JStr) : List JStr := l.foldl normStep []

/-- Join segments without a leading separator. -/
def joinSegs : List JStr → JStr
  | [] => []
  | s :: rest =>
    match rest with
    | [] => s
    | _ :: _ => s ++ '/' :: joinSegs rest

/-- Render a normalized segment list as an absolute path (`/` when empty). -/
def joinAbs (segs : List JStr) : JStr := '/' :: joinSegs segs

/-- Node's `path.resolve(base, p)` for an absolute `base` (the callers build
`baseDir` with `path.resolve`, so it is always absolute): if `p` is absolute
the base is ignored, otherwise `p` is joined onto the base; the result is
normalized lexically, without touching the filesystem. -/
def nodeResolve (base p : JStr) : JStr :=
  if startsWithSlash p then joinAbs (normSegs (splitSegs p))
  else joinAbs (normSegs (splitSegs (base ++ '/' :: p)))

/-- Strip one leading `/` if present
(fs-handlers.js line 35: `filePath.startsWith('/') ? filePath.slice(1) : filePath`). -/
def stripLeadSlash (p : JStr) : JStr := if startsWithSlash p then p.tail else p

/-- The path resolver returned by `createPathResolver(baseDir)`:
strip one leading slash, resolve against the base directory, and accept the
result exactly when the base directory string is a prefix of it
(`resolved.startsWith(baseDir)`); `none` models the thrown
`Invalid path: outside base directory` error. -/
def resolvePath (baseDir p : JStr) : Option JStr :=
  if baseDir.isPrefixOf (nodeResolve baseDir (stripLeadSlash p))
  then some (nodeResolve baseDir (stripLeadSlash p)) else none

/-- A path `q` lies lexically inside the directory `root` when it equals the
root or is a descendant of it (the root followed by a separator is a prefix). -/
def insideDir (root q : JStr) : Bool :=
  q = root || (root ++ ['/']).isPrefixOf q

/-- A segment that Node's normalization keeps verbatim. -/
def CleanSeg (s : JStr) : Prop := s ≠ [] ∧ s ≠ ['.'] ∧ s ≠ ['.', '.'] ∧ '/' ∉ s

/-- A canonical absolute confinement root other than `/`: a nonempty list of
clean segments rendered as an absolute path (the callers build the base
directory with `path.resolve`, which produces exactly this shape). -/
def IsCleanRoot (base : JStr) : Prop :=
  ∃ segs, segs ≠ [] ∧ (∀ s ∈ segs, CleanSeg s) ∧ base = joinAbs segs

/-! ## JSON values

JS values flowing through the gateway (parsed request bodies, response
payloads).  Numbers are restricted to integers: the repository's handlers and
tests only exchange integral numbers, and JS doubles are outside this model. -/
inductive Json where
  | null : Json
  | bool (b : Bool) : Json
  | num (n : Int) : Json
  | str (s : JStr) : Json
  | arr (items : List Json) : Json
  | obj (fields : List (JStr × Json)) : Json

abbrev JsVal := Option Json

/-- A thrown JS exception, carrying its `message`. -/
structure JsErr where
  message : JStr
deriving DecidableEq

/-- JS truthiness of a possibly-undefined value: `undefined`, `null`, `false`,
`0` and the empty string are falsy; every other value is truthy. -/
def jsTruthy : JsVal → Bool
  | none => false
  | some .null => false
  | some (.bool b) => b
  | some (.num n) => decide (n ≠ 0)
  | some (.str s) => decide (s ≠ [])
  | some (.arr _) => true
  | some (.obj _) => true

/-- Last-occurrence lookup in an object's field list (`JSON.parse` keeps the
last duplicate key, so later fields shadow earlier ones). -/
def lookupLast (fields : List (JStr × Json)) (k : JStr) : JsVal :=
  match fields with
  | [] => none
  | (k', v) :: rest =>
    match lookupLast rest k with
    | some w => some w
    | none => if k' = k then some v else none

/-- JS member access `v.k` on a parsed JSON value: a field of an object
(`undefined` when absent), `undefined` on any other non-null value, and a
thrown TypeError on `null`. -/
def getField : Json → JStr → Except JsErr JsVal
  | .null, _ => .error ⟨"Cannot read properties of null".data⟩
  | .obj fields, k => .ok (lookupLast fields k)
  | _, _ => .ok none

/-! ## Decimal rendering of numbers -/
/-- Decimal digit character. -/
def digitChar : Nat → Char
  | 0 => '0' | 1 => '1' | 2 => '2' | 3 => '3' | 4 => '4'
  | 5 => '5' | 6 => '6' | 7 => '7' | 8 => '8' | _ => '9'

/-- Numeric value of a decimal or hexadecimal digit character (`none` for
other characters). -/
def digitVal (c : Char) : Option Nat :=
  if '0' ≤ c ∧ c ≤ '9' then some (c.toNat - 48) else none

def isDigitC (c : Char) : Bool := decide ('0' ≤ c ∧ c ≤ '9')

/-- Little-endian decimal digits (fuel-structural so concrete values reduce
in the kernel; `fuel ≥ n` suffices). -/
def natDigitsRevF : Nat → Nat → List Nat
  | 0, _ => []
  | fuel + 1, n => if n = 0 then [] else n % 10 :: natDigitsRevF fuel (n / 10)

/-- Decimal representation of a natural number. -/
def natToStr (n : Nat) : JStr :=
  if n = 0 then ['0'] else ((natDigitsRevF n n).map digitChar).reverse

/-- JS decimal rendering of an integer. -/
def intToStr : Int → JStr
  | .ofNat n => natToStr n
  | .negSucc m => '-' :: natToStr (m + 1)

/-! ## JSON serialization (`JSON.stringify(v, null, 2)`) -/
/-- The double-quote character. -/
def quoteC : Char := Char.ofNat 34

/-- The backslash character. -/
def backslashC : Char := Char.ofNat 92

/-- The opening-brace character. -/
def lbraceC : Char := Char.ofNat 123

/-- The closing-brace character. -/
def rbraceC : Char := Char.ofNat 125

/-- Lowercase hexadecimal digit character. -/
def hexChar : Nat → Char
  | 0 => '0' | 1 => '1' | 2 => '2' | 3 => '3' | 4 => '4'
  | 5 => '5' | 6 => '6' | 7 => '7' | 8 => '8' | 9 => '9'
  | 10 => 'a' | 11 => 'b' | 12 => 'c' | 13 => 'd' | 14 => 'e' | _ => 'f'

/-- JSON string escaping as performed by `JSON.stringify`: `"` and `\` get a
backslash, the five named control escapes use their short forms, any other
control character becomes `\u00XX`, and everything else is copied verbatim. -/
def escChar (c : Char) : JStr :=
  if c = quoteC then [backslashC, quoteC]
  else if c = backslashC then [backslashC, backslashC]
  else if c = Char.ofNat 8 then [backslashC, 'b']
  else if c = Char.ofNat 9 then [backslashC, 't']
  else if c = Char.ofNat 10 then [backslashC, 'n']
  else if c = Char.ofNat 12 then [backslashC, 'f']
  else if c = Char.ofNat 13 then [backslashC, 'r']
  else if c.toNat < 32 then
    [backslashC, 'u', '0', '0', hexChar (c.toNat / 16), hexChar (c.toNat % 16)]
  else [c]

/-- Escape every character of a string body. -/
def escStr : JStr → JStr
  | [] => []
  | c :: rest => escChar c ++ escStr rest

/-- A JSON string literal: quoted and escaped. -/
def quoteStr (s : JStr) : JStr := quoteC :: escStr s ++ [quoteC]

/-- `n` spaces. -/
def spaces (n : Nat) : JStr := List.replicate n ' '

mutual

/-- `JSON.stringify(v, null, 2)` at current indentation depth `ind`:
two-space pretty printing exactly as V8 renders it. -/
def strf (ind : Nat) : Json → JStr
  | .null => "null".data
  | .bool true => "true".data
  | .bool false => "false".data
  | .num n => intToStr n
  | .str s => quoteStr s
  | .arr items =>
    match items with
    | [] => "[]".data
    | _ :: _ =>
      '[' :: '\n' :: (strfItems (ind + 2) items ++ '\n' :: (spaces ind ++ [']']))
  | .obj fields =>
    match fields with
    | [] => [lbraceC, rbraceC]
    | _ :: _ =>
      lbraceC :: '\n' :: (strfFields (ind + 2) fields ++ '\n' :: (spaces ind ++ [rbraceC]))
  termination_by structural v => v

/-- The comma-and-newline separated items of a pretty-printed array, each on
its own indented line. -/
def strfItems (ind : Nat) (items : List Json) : JStr :=
  match items with
  | [] => []
  | v :: rest =>
    spaces ind ++ strf ind v ++
      (match rest with
       | [] => []
       | _ :: _ => ',' :: '\n' :: strfItems ind rest)
  termination_by structural items

/-- The comma-and-newline separated fields of a pretty-printed object, each
`"key": value` on its own indented line. -/
def strfFields (ind : Nat) (fields : List (JStr × Json)) : JStr :=
  match fields with
  | [] => []
  | (k, v) :: rest =>
    spaces ind ++ (quoteStr k ++ ':' :: ' ' :: strf ind v) ++
      (match rest with
       | [] => []
       | _ :: _ => ',' :: '\n' :: strfFields ind rest)
  termination_by structural fields

end

/-! ## JS `String(v)` conversion -/
mutual

/-- JS `String(v)` on a JSON value. -/
def jsToString : Json → JStr
  | .null => "null".data
  | .bool true => "true".data
  | .bool false => "false".data
  | .num n => intToStr n
  | .str s => s
  | .arr items => jsArrToString items
  | .obj _ => "[object Object]".data

/-- JS array `toString` (`join(',')`): elements rendered recursively, `null`
elements rendered as the empty string. -/
def jsArrToString : List Json → JStr
  | [] => []
  | v :: rest =>
    jsElemToString v ++
      (match rest with
       | [] => []
       | _ :: _ => ',' :: jsArrToString rest)
  termination_by structural l => l

/-- One array element under `join`: `null` is empty, anything else uses
`String(v)`. -/
def jsElemToString : Json → JStr
  | .null => []
  | .bool true => "true".data
  | .bool false => "false".data
  | .num n => intToStr n
  | .str s => s
  | .arr items => jsArrToString items
  | .obj _ => "[object Object]".data
  termination_by structural v => v

end

/-! ## JSON parsing (`JSON.parse`) -/
/-- JSON whitespace (space, tab, line feed, carriage return). -/
def isWsC (c : Char) : Bool :=
  decide (c = ' ' ∨ c = Char.ofNat 9 ∨ c = Char.ofNat 10 ∨ c = Char.ofNat 13)

/-- Skip JSON whitespace. -/
def skipWs (s : JStr) : JStr := s.dropWhile isWsC

/-- Hexadecimal digit value. -/
def hexVal (c : Char) : Option Nat :=
  if '0' ≤ c ∧ c ≤ '9' then some (c.toNat - 48)
  else if 'a' ≤ c ∧ c ≤ 'f' then some (c.toNat - 87)
  else if 'A' ≤ c ∧ c ≤ 'F' then some (c.toNat - 55)
  else none

/-- The character named by a single-character JSON escape, if any. -/
def escCharOf (e : Char) : Option Char :=
  if e = quoteC then some quoteC
  else if e = backslashC then some backslashC
  else if e = '/' then some '/'
  else if e = 'b' then some (Char.ofNat 8)
  else if e = 't' then some (Char.ofNat 9)
  else if e = 'n' then some (Char.ofNat 10)
  else if e = 'f' then some (Char.ofNat 12)
  else if e = 'r' then some (Char.ofNat 13)
  else none

/-- Decode four hexadecimal digits into their value. -/
def hexQuad : JStr → Option (Nat × JStr)
  | h1 :: h2 :: h3 :: h4 :: rest =>
    match hexVal h1, hexVal h2, hexVal h3, hexVal h4 with
    | some a, some b, some c, some d => some (4096 * a + 256 * b + 16 * c + d, rest)
    | _, _, _, _ => none
  | _ => none

/-- Decode one JSON escape sequence (after the backslash): the decoded
character and the remaining input.  `\uXXXX` surrogate pairs are combined
into one code point; a lone surrogate (not a Unicode scalar value, hence
unrepresentable in the model's strings) fails. -/
def unescape1 (s : JStr) : Option (Char × JStr) :=
  match s with
  | [] => none
  | e :: rest2 =>
    match escCharOf e with
    | some d => some (d, rest2)
    | none =>
      if e = 'u' then
        match hexQuad rest2 with
        | some (n, rest6) =>
          if n < 55296 ∨ 57344 ≤ n then some (Char.ofNat n, rest6)
          else if n < 56320 then
            match rest6 with
            | b2 :: u2 :: rest8 =>
              if b2 = backslashC ∧ u2 = 'u' then
                match hexQuad rest8 with
                | some (m, rest12) =>
                  if 56320 ≤ m ∧ m < 57344 then
                    some (Char.ofNat (65536 + (n - 55296) * 1024 + (m - 56320)), rest12)
                  else none
                | none => none
              else none
            | _ => none
          else none
        | none => none
      else none

/-- Parse the body of a JSON string literal (after the opening quote) up to
and including the closing quote, decoding escapes.  The fuel only bounds the
number of decoded characters, which never exceeds the input length, so the
callers' `length + 1` fuel is always sufficient. -/
def pStringBodyF : Nat → JStr → Option (JStr × JStr)
  | 0, _ => none
  | fuel + 1, s =>
    match s with
    | [] => none
    | c :: rest =>
      if c = quoteC then some ([], rest)
      else if c = backslashC then
        match unescape1 rest with
        | some (d, rest2) => (pStringBodyF fuel rest2).map (fun p => (d :: p.1, p.2))
        | none => none
      else (pStringBodyF fuel rest).map (fun p => (c :: p.1, p.2))

/-- Parse a string-literal body, with fuel derived from the input length. -/
def pStringBody (s : JStr) : Option (JStr × JStr) :=
  pStringBodyF (s.length + 1) s

/-- Fold decimal digit characters into a natural number. -/
def digitsToNat (ds : JStr) : Nat :=
  ds.foldl (fun acc c => 10 * acc + (c.toNat - 48)) 0

/-- Parse a JSON integer numeral.  Fractional and exponent forms denote JS
doubles, which are outside the model's domain, so they fail here; a leading
zero followed by more digits is invalid JSON. -/
def pNat (s : JStr) : Option (Nat × JStr) :=
  if s.takeWhile isDigitC = [] then none
  else if (s.takeWhile isDigitC).head? = some '0' ∧ 2 ≤ (s.takeWhile isDigitC).length
  then none
  else
    match s.dropWhile isDigitC with
    | c :: r =>
      if c = '.' ∨ c = 'e' ∨ c = 'E' then none
      else some (digitsToNat (s.takeWhile isDigitC), c :: r)
    | [] => some (digitsToNat (s.takeWhile isDigitC), [])

/-- Parse a JSON number (integer part only, see `pNat`). -/
def pNum (s : JStr) : Option (Int × JStr) :=
  if s.head? = some '-' then (pNat s.tail).map (fun p => (-(p.1 : Int), p.2))
  else (pNat s).map (fun p => ((p.1 : Int), p.2))

mutual

/-- Parse one JSON value; the input must start with the value's first
character (callers skip leading whitespace).  The fuel decreases at each
nested value and list element, so any fuel above the nesting weight of the
document suffices; `jsonParse` passes the input length plus one. -/
def pVal : Nat → JStr → Option (Json × JStr)
  | 0, _ => none
  | fuel + 1, s =>
    match s with
    | [] => none
    | c :: rest =>
      if c = quoteC then (pStringBody rest).map (fun p => (Json.str p.1, p.2))
      else if c = '[' then
        match skipWs rest with
        | ']' :: r => some (Json.arr [], r)
        | s1 => (pItems fuel s1).map (fun p => (Json.arr p.1, p.2))
      else if c = lbraceC then
        match skipWs rest with
        | c2 :: r =>
          if c2 = rbraceC then some (Json.obj [], r)
          else (pFields fuel (c2 :: r)).map (fun p => (Json.obj p.1, p.2))
        | [] => none
      else if c = 't' then
        match rest with
        | 'r' :: 'u' :: 'e' :: r => some (Json.bool true, r)
        | _ => none
      else if c = 'f' then
        match rest with
        | 'a' :: 'l' :: 's' :: 'e' :: r => some (Json.bool false, r)
        | _ => none
      else if c = 'n' then
        match rest with
        | 'u' :: 'l' :: 'l' :: r => some (Json.null, r)
        | _ => none
      else (pNum (c :: rest)).map (fun p => (Json.num p.1, p.2))

/-- Parse the elements of a nonempty array body (whitespace already
skipped), consuming the closing bracket. -/
def pItems : Nat → JStr → Option (List Json × JStr)
  | 0, _ => none
  | fuel + 1, s =>
    match pVal fuel s with
    | some (v, r) =>
      match skipWs r with
      | ',' :: r2 => (pItems fuel (skipWs r2)).map (fun p => (v :: p.1, p.2))
      | ']' :: r2 => some ([v], r2)
      | _ => none
    | none => none

/-- Parse the fields of a nonempty object body (whitespace already skipped),
consuming the closing brace. -/
def pFields : Nat → JStr → Option (List (JStr × Json) × JStr)
  | 0, _ => none
  | fuel + 1, s =>
    match s with
    | c :: rest =>
      if c = quoteC then
        match pStringBody rest with
        | some (k, r) =>
          match skipWs r with
          | ':' :: r2 =>
            match pVal fuel (skipWs r2) with
            | some (v, r3) =>
              match skipWs r3 with
              | ',' :: r4 => (pFields fuel (skipWs r4)).map (fun p => ((k, v) :: p.1, p.2))
              | c4 :: r4 => if c4 = rbraceC then some ([(k, v)], r4) else none
              | [] => none
            | none => none
          | _ => none
        | none => none
      else none
    | [] => none

end

/-- `JSON.parse`: skip surrounding whitespace, parse one value, and require
that only whitespace remains; `none` models the thrown SyntaxError. -/
def jsonParse (s : JStr) : Option Json :=
  match pVal (s.length + 1) (skipWs s) with
  | some (v, rest) => if skipWs rest = [] then some v else none
  | none => none

/-! ## Decimal round-trip lemmas -/
/-- Value of a little-endian digit list. -/
def natFromRev : List Nat → Nat
  | [] => 0
  | d :: rest => d + 10 * natFromRev rest

/-- Characters that may legally follow a printed numeral (so that the
numeral parser stops exactly at the splice point). -/
def RestOk (rest : JStr) : Prop :=
  ∀ c, rest.head? = some c →
    isDigitC c = false ∧ c ≠ '.' ∧ c ≠ 'e' ∧ c ≠ 'E' ∧ c ≠ '-'

/-- A string consisting only of JSON whitespace. -/
def WsOnly (ws : JStr) : Prop := ∀ c ∈ ws, isWsC c = true

/-! ## Parser fuel for a printed document -/
mutual

/-- Fuel sufficient for the parser to re-read a printed value. -/
def jfuel : Json → Nat
  | .null => 1
  | .bool _ => 1
  | .num _ => 1
  | .str _ => 1
  | .arr items => 1 + jfuelItems items
  | .obj fields => 1 + jfuelFields fields
  termination_by structural v => v

/-- Fuel for the elements of an array body. -/
def jfuelItems : List Json → Nat
  | [] => 0
  | v :: rest => 1 + max (jfuel v) (jfuelItems rest)
  termination_by structural l => l

/-- Fuel for the fields of an object body. -/
def jfuelFields : List (JStr × Json) → Nat
  | [] => 0
  | (_, v) :: rest => 1 + max (jfuel v) (jfuelFields rest)
  termination_by structural l => l

end

/-! ## Print-then-parse round trip -/
/-- The separator-plus-remaining-items part of a printed array body. -/
def strfItemsSep (ind : Nat) (vs : List Json) : JStr :=
  match vs with
  | [] => []
  | _ :: _ => ',' :: '\n' :: strfItems ind vs

/-- The separator-plus-remaining-fields part of a printed object body. -/
def strfFieldsSep (ind : Nat) (fs : List (JStr × Json)) : JStr :=
  match fs with
  | [] => []
  | _ :: _ => ',' :: '\n' :: strfFields ind fs

/-! ## HTTP request/response model -/
/-- An incoming HTTP request as seen by the handlers: method, URL (with query
string), declared content type (absent allowed) and raw body bytes. -/
structure Request where
  method : JStr
  url : JStr
  contentType : Option JStr
  body : JStr

/-- An HTTP response: status code and JSON body (`none` for the bare CORS
preflight reply, which has an empty body). -/
structure Response where
  status : Nat
  body : Option Json

/-! ## Query-string parsing (`parseQuery`, fs-handlers.js lines 23-27) -/
/-- Percent-decoding as done by `URLSearchParams`: `+` becomes a space and
`%XX` the character with that code (multi-byte UTF-8 sequences are abstracted
to their individual bytes; no route in the repo depends on them). -/
def percentDecode : JStr → JStr
  | [] => []
  | '%' :: h1 :: h2 :: rest =>
    (match hexVal h1, hexVal h2 with
     | some a, some b => Char.ofNat (16 * a + b) :: percentDecode rest
     | _, _ => '%' :: percentDecode (h1 :: h2 :: rest))
  | '+' :: rest => ' ' :: percentDecode rest
  | c :: rest => c :: percentDecode rest

/-- Split a string on a separator character. -/
def splitOnChar (sep : Char) : JStr → List JStr
  | [] => [[]]
  | c :: rest =>
    if c = sep then [] :: splitOnChar sep rest
    else
      match splitOnChar sep rest with
      | s :: ss => (c :: s) :: ss
      | [] => [[c]]

/-- One `key=value` pair of a query string (value empty when no `=`). -/
def queryPair (s : JStr) : JStr × JStr :=
  (percentDecode (s.takeWhile (fun c => decide (c ≠ '='))),
   percentDecode ((s.dropWhile (fun c => decide (c ≠ '='))).tail))

/-- `parseQuery`: the text between the first and second `?` of the URL
(`url.split('?')[1]`), parsed as `URLSearchParams` pairs. -/
def parseQuery (url : JStr) : List (JStr × JStr) :=
  match url.dropWhile (fun c => decide (c ≠ '?')) with
  | [] => []
  | _ :: qs =>
    (splitOnChar '&' (qs.takeWhile (fun c => decide (c ≠ '?')))).filterMap
      (fun seg => if seg = [] then none else some (queryPair seg))

/-- `Object.fromEntries` keeps the last duplicate key, so lookups return the
last value bound to a key. -/
def qlast (q : List (JStr × JStr)) (k : JStr) : Option JStr :=
  match q with
  | [] => none
  | (k2, v) :: rest =>
    match qlast rest k with
    | some w => some w
    | none => if k2 = k then some v else none

/-! ## Filesystem model

Modelled from the platform (`fs/promises`): a simplified filesystem holding
regular files (path ↦ contents) and directories, with no symlinks,
permissions or timestamps.  Claims about the gateway only depend on
existence, contents and child listings, which this models faithfully. -/
/-- One invocation of an `fs/promises` primitive, with its arguments. -/
inductive FsCall where
  | readFile (path : JStr)
  | writeFile (path : JStr) (data : JStr)
  | appendFile (path : JStr) (data : JStr)
  | copyFile (src dest : JStr)
  | readdir (path : JStr) (withFileTypes : Bool)
  | mkdir (path : JStr) (recursive : Bool)
  | rmdir (path : JStr) (recursive : Bool)
  | rm (path : JStr) (recursive : Bool) (force : Bool)
  | rename (oldPath newPath : JStr)
  | unlink (path : JStr)
  | stat (path : JStr)
  | lstat (path : JStr)
  | realpath (path : JStr)
  | readlink (path : JStr)
deriving DecidableEq

/-- The filesystem state. -/
structure FsState where
  files : List (JStr × JStr)
  dirs : List JStr
deriving DecidableEq

def fsRead (st : FsState) (p : JStr) : Option JStr :=
  (st.files.find? (fun f => decide (f.1 = p))).map (fun f => f.2)

def fsWrite (st : FsState) (p c : JStr) : FsState :=
  ⟨(p, c) :: st.files.filter (fun f => decide (f.1 ≠ p)), st.dirs⟩

def isDir (st : FsState) (p : JStr) : Bool := st.dirs.contains p

def enoent : JsErr := ⟨"ENOENT: no such file or directory".data⟩

/-- The immediate child name of `p` named by the path `q`, if any. -/
def childName (p q : JStr) : Option JStr :=
  if (p ++ ['/']).isPrefixOf q then
    let n := q.drop (p.length + 1)
    if n ≠ [] ∧ '/' ∉ n then some n else none
  else none

/-- Names of the immediate children of directory `p`. -/
def fsChildren (st : FsState) (p : JStr) : List JStr :=
  (st.files.map (fun f => f.1) ++ st.dirs).filterMap (childName p)

/-- Does the directory `p` contain anything (at any depth)? -/
def hasDescendant (st : FsState) (p : JStr) : Bool :=
  (st.files.map (fun f => f.1) ++ st.dirs).any (fun q => (p ++ ['/']).isPrefixOf q)

/-- Remove a directory subtree rooted at `p`. -/
def removeTree (st : FsState) (p : JStr) : FsState :=
  ⟨st.files.filter (fun f => decide (¬ (p ++ ['/']).isPrefixOf f.1)),
   st.dirs.filter (fun q => decide (q ≠ p ∧ ¬ (p ++ ['/']).isPrefixOf q))⟩

/-- The parent directory of a normalized absolute path. -/
def parentDir (p : JStr) : JStr := joinAbs ((normSegs (splitSegs p)).dropLast)

/-! ## Body decoder for write/append (fs-handlers.js lines 163-238, 261-336;
the two handlers contain this logic verbatim) -/
/-- JS `String.prototype.includes` (substring test). -/
def ctInc (ct sub : JStr) : Bool :=
  (List.range (ct.length + 1)).any (fun i => sub.isPrefixOf (ct.drop i))

/-- The binary content-type group of the decision table. -/
def binaryCt (ct : JStr) : Bool :=
  ctInc ct "application/octet-stream".data || ctInc ct "image/".data ||
    ctInc ct "video/".data || ctInc ct "audio/".data ||
    ctInc ct "application/pdf".data

/-- Encodings accepted by `Buffer.from(string, encoding)`. -/
def knownEncoding (s : JStr) : Bool :=
  decide (s = "utf8".data ∨ s = "utf-8".data ∨ s = "ascii".data ∨
    s = "latin1".data ∨ s = "binary".data ∨ s = "base64".data ∨
    s = "base64url".data ∨ s = "hex".data ∨ s = "ucs2".data ∨
    s = "ucs-2".data ∨ s = "utf16le".data ∨ s = "utf-16le".data)

/-- `Buffer.from(string, encoding)`.  Non-string or empty encodings fall back
to utf8; unknown encodings throw.  Byte-level re-encoding is abstracted to the
identity on the character sequence (no claim depends on a non-utf8 payload). -/
def encodeBuf (s : JStr) (enc : JsVal) : Except JsErr JStr :=
  match enc with
  | some (.str e) =>
    if e = [] then .ok s
    else if knownEncoding e then .ok s
    else .error ⟨"Unknown encoding".data⟩
  | _ => .ok s

/-- Base64 alphabet value of a character. -/
def b64Val (c : Char) : Option Nat :=
  if 'A' ≤ c ∧ c ≤ 'Z' then some (c.toNat - 65)
  else if 'a' ≤ c ∧ c ≤ 'z' then some (c.toNat - 71)
  else if '0' ≤ c ∧ c ≤ '9' then some (c.toNat + 4)
  else if c = '+' then some 62
  else if c = '/' then some 63
  else none

/-- Regroup base64 six-bit values into bytes. -/
def b64Group : List Nat → JStr
  | a :: b :: c :: d :: rest =>
    Char.ofNat ((a * 4 + b / 16) % 256) :: Char.ofNat ((b % 16 * 16 + c / 4) % 256) ::
      Char.ofNat ((c % 4 * 64 + d) % 256) :: b64Group rest
  | [a, b] => [Char.ofNat ((a * 4 + b / 16) % 256)]
  | [a, b, c] =>
    [Char.ofNat ((a * 4 + b / 16) % 256), Char.ofNat ((b % 16 * 16 + c / 4) % 256)]
  | _ => []

/-- `Buffer.from(string, 'base64')`: non-alphabet characters are skipped, the
rest decoded in six-bit groups. -/
def base64Decode (s : JStr) : JStr := b64Group (s.filterMap b64Val)

/-- `Buffer.from(array)`: numeric entries are truncated to bytes, anything
else becomes 0. -/
def bufferFromArray (l : List Json) : JStr :=
  l.map (fun v =>
    match v with
    | .num n => Char.ofNat (n.emod 256).toNat
    | _ => Char.ofNat 0)

/-- `Buffer.from(data)` / `Buffer.from(data, 'base64')` as used by the
`buffer` type of the structured body: arrays become byte sequences, strings
are base64-decoded, anything else throws a TypeError. -/
def bufferFrom (d : Json) : Except JsErr JStr :=
  match d with
  | .arr l => .ok (bufferFromArray l)
  | .str s => .ok (base64Decode s)
  | _ => .error ⟨"The first argument must be of type string or an instance of Buffer".data⟩

/-- A field of a parsed (non-null) object, `none` when absent (undefined). -/
def getFieldD (body : Json) (k : JStr) : JsVal :=
  match getField body k with
  | .ok v => v
  | .error _ => none

/-- The payload computed by the structured-body `switch (dataType)`
(fs-handlers.js lines 219-231). -/
def structuredPayload (d : Json) (typeV encV : JsVal) : Except JsErr JStr :=
  match typeV.getD (Json.str "text".data) with
  | .str s =>
    if s = "text".data then encodeBuf (jsToString d) encV
    else if s = "json".data then encodeBuf (strf 0 d) encV
    else if s = "buffer".data then bufferFrom d
    else encodeBuf (jsToString d) encV
  | _ => encodeBuf (jsToString d) encV

/-- The outcome of the body-decoding phase of write/append: an early 400
reply, a thrown exception, or a decoded `(path, payload, type)` triple.  The
`type` is the raw classification value echoed in the success response. -/
inductive DecodeOut where
  | reply (r : Response)
  | thrown (e : JsErr)
  | ok (pathV : JsVal) (payload : JStr) (tag : Json)

def err400 (msg : JStr) : Response :=
  ⟨400, some (Json.obj [("error".data, Json.str msg)])⟩

/-- The content-negotiation and body decoding shared verbatim by
`POST /writeFile` (lines 163-245) and `POST /appendFile` (lines 261-343):
the content-type decision table, the structured-body parse and its
validations.  The final empty-payload check lives in the handlers, after
this decode, exactly as in the source. -/
def decodeWriteBody (ct : JStr) (qpath : Option JStr) (raw : JStr) : DecodeOut :=
  if binaryCt ct then .ok (qpath.map Json.str) raw (Json.str "binary".data)
  else if ctInc ct "text/plain".data then .ok (qpath.map Json.str) raw (Json.str "text".data)
  else if ctInc ct "application/json".data then
    if jsTruthy (qpath.map Json.str) then .ok (qpath.map Json.str) raw (Json.str "json".data)
    else if raw = [] then .reply (err400 "Empty request body".data)
    else
      match jsonParse raw with
      | none => .thrown ⟨"Unexpected token in JSON".data⟩
      | some body =>
        match getField body "path".data with
        | .error e => .thrown e
        | .ok pathV =>
          if jsTruthy pathV then
            match getFieldD body "data".data with
            | none => .reply (err400 "Data is required".data)
            | some Json.null => .reply (err400 "Data is required".data)
            | some d =>
              match structuredPayload d (getFieldD body "type".data)
                  (getFieldD body "encoding".data) with
              | .error e => .thrown e
              | .ok payload =>
                .ok pathV payload ((getFieldD body "type".data).getD (Json.str "text".data))
          else .reply (err400 "Path is required".data)
  else .ok (qpath.map Json.str) raw (Json.str "unknown".data)

/-! ## Route handlers (`createFsHandlers`, fs-handlers.js lines 49-419) -/
/-- The outcome of running one handler: a response or a thrown exception, the
filesystem state afterwards, and the list of filesystem primitives invoked. -/
structure HOut where
  result : Except JsErr Response
  state : FsState
  calls : List FsCall

/-- Resolve a path-valued JS expression through `createPathResolver`:
a string resolves (or throws `outside base directory`); `undefined` or any
non-string throws a TypeError (`filePath.startsWith` is not a function). -/
def resolveJs (base : JStr) (v : JsVal) : Except JsErr JStr :=
  match v with
  | some (.str s) =>
    match resolvePath base s with
    | some full => .ok full
    | none => .error ⟨"Invalid path: outside base directory".data⟩
  | _ => .error ⟨"filePath.startsWith is not a function".data⟩

def rootHandler (base : JStr) : Request → FsState → HOut := fun _ st =>
  ⟨.ok ⟨200, some (Json.obj [("message".data, Json.str "fs-browser API".data),
    ("baseDirectory".data, Json.str base)])⟩, st, []⟩

def methodsHandler : Request → FsState → HOut := fun _ st =>
  ⟨.ok ⟨200, some (Json.obj [("methods".data, Json.arr
    (["readFile", "writeFile", "appendFile", "copyFile", "readdir", "mkdir",
      "rmdir", "rm", "rename", "unlink", "stat", "lstat", "readlink",
      "realpath"].map (fun s => Json.str s.data)))])⟩, st, []⟩

/-- `GET /readFile` (lines 76-83). -/
def readFileHandler (base : JStr) : Request → FsState → HOut := fun req st =>
  let q := parseQuery req.url
  let encoding := (qlast q "encoding".data).getD "utf8".data
  match resolveJs base ((qlast q "path".data).map Json.str) with
  | .error e => ⟨.error e, st, []⟩
  | .ok full =>
    if encoding ≠ [] ∧ knownEncoding encoding = false then
      ⟨.error ⟨"Unknown encoding".data⟩, st, [.readFile full]⟩
    else
      match fsRead st full with
      | some content =>
        ⟨.ok ⟨200, some (Json.obj [("data".data,
          if encoding = [] then
            Json.obj [("type".data, Json.str "Buffer".data),
              ("data".data, Json.arr (content.map (fun c => Json.num c.toNat)))]
          else Json.str content)])⟩, st, [.readFile full]⟩
      | none => ⟨.error enoent, st, [.readFile full]⟩

/-- The JSON rendering of one `withFileTypes` directory entry (Node `Dirent`
serialization, modelled with its name and parent path). -/
def direntJson (parent n : JStr) : Json :=
  Json.obj [("name".data, Json.str n), ("parentPath".data, Json.str parent),
    ("path".data, Json.str parent)]

/-- `GET /readdir` (lines 86-95). -/
def readdirHandler (base : JStr) : Request → FsState → HOut := fun req st =>
  let q := parseQuery req.url
  let dirPath := (qlast q "path".data).getD ".".data
  let wft := (qlast q "withFileTypes".data).getD "false".data
  match resolvePath base dirPath with
  | none => ⟨.error ⟨"Invalid path: outside base directory".data⟩, st, []⟩
  | some full =>
    if isDir st full then
      ⟨.ok ⟨200, some (Json.obj [("files".data,
        if wft = "true".data
        then Json.arr ((fsChildren st full).map (direntJson full))
        else Json.arr ((fsChildren st full).map Json.str))])⟩,
        st, [.readdir full (wft = "true".data)]⟩
    else ⟨.error enoent, st, [.readdir full (wft = "true".data)]⟩

/-- The stat projection built by the stat/lstat handlers (timestamps and
modes are modelled as constants; no claim depends on them). -/
def statJson (isFile : Bool) (size : Nat) : Json :=
  Json.obj [("isFile".data, Json.bool isFile),
    ("isDirectory".data, Json.bool (!isFile)),
    ("isSymbolicLink".data, Json.bool false),
    ("size".data, Json.num size), ("mode".data, Json.num (if isFile then 33188 else 16877)),
    ("mtime".data, Json.num 0), ("atime".data, Json.num 0),
    ("ctime".data, Json.num 0), ("birthtime".data, Json.num 0)]

/-- `GET /stat` (lines 98-117); the model has no symlinks so `lstat` behaves
identically except for the primitive invoked. -/
def statHandler (base : JStr) (lstatMode : Bool) : Request → FsState → HOut := fun req st =>
  let q := parseQuery req.url
  match resolveJs base ((qlast q "path".data).map Json.str) with
  | .error e => ⟨.error e, st, []⟩
  | .ok full =>
    let call := if lstatMode then FsCall.lstat full else FsCall.stat full
    match fsRead st full with
    | some content =>
      ⟨.ok ⟨200, some (Json.obj [("stats".data, statJson true content.length)])⟩, st, [call]⟩
    | none =>
      if isDir st full then
        ⟨.ok ⟨200, some (Json.obj [("stats".data, statJson false 4096)])⟩, st, [call]⟩
      else ⟨.error enoent, st, [call]⟩

/-- `GET /realpath` (lines 142-149); the model has no symlinks, so an
existing path is its own canonical path. -/
def realpathHandler (base : JStr) : Request → FsState → HOut := fun req st =>
  let q := parseQuery req.url
  match resolveJs base ((qlast q "path".data).map Json.str) with
  | .error e => ⟨.error e, st, []⟩
  | .ok full =>
    if fsRead st full ≠ none ∨ isDir st full then
      ⟨.ok ⟨200, some (Json.obj [("realPath".data, Json.str full)])⟩, st, [.realpath full]⟩
    else ⟨.error enoent, st, [.realpath full]⟩

/-- `GET /readlink` (lines 152-159); the model has no symlinks, so the
primitive always fails with EINVAL. -/
def readlinkHandler (base : JStr) : Request → FsState → HOut := fun req st =>
  let q := parseQuery req.url
  match resolveJs base ((qlast q "path".data).map Json.str) with
  | .error e => ⟨.error e, st, []⟩
  | .ok full => ⟨.error ⟨"EINVAL: invalid argument".data⟩, st, [.readlink full]⟩

/-- `POST /writeFile` (lines 162-257). -/
def writeFileHandler (base : JStr) : Request → FsState → HOut := fun req st =>
  let ct := req.contentType.getD []
  let q := parseQuery req.url
  match decodeWriteBody ct (qlast q "path".data) req.body with
  | .reply r => ⟨.ok r, st, []⟩
  | .thrown e => ⟨.error e, st, []⟩
  | .ok pathV payload tag =>
    if payload.length = 0 then ⟨.ok (err400 "No data to write".data), st, []⟩
    else
      match resolveJs base pathV with
      | .error e => ⟨.error e, st, []⟩
      | .ok full =>
        ⟨.ok ⟨200, some (Json.obj [
          ("message".data, Json.str "File written successfully".data),
          ("path".data, pathV.getD Json.null), ("type".data, tag),
          ("size".data, Json.num payload.length)])⟩,
          fsWrite st full payload, [.writeFile full payload]⟩

/-- `POST /appendFile` (lines 260-355). -/
def appendFileHandler (base : JStr) : Request → FsState → HOut := fun req st =>
  let ct := req.contentType.getD []
  let q := parseQuery req.url
  match decodeWriteBody ct (qlast q "path".data) req.body with
  | .reply r => ⟨.ok r, st, []⟩
  | .thrown e => ⟨.error e, st, []⟩
  | .ok pathV payload tag =>
    if payload.length = 0 then ⟨.ok (err400 "No data to append".data), st, []⟩
    else
      match resolveJs base pathV with
      | .error e => ⟨.error e, st, []⟩
      | .ok full =>
        let newContent := (fsRead st full).getD [] ++ payload
        ⟨.ok ⟨200, some (Json.obj [
          ("message".data, Json.str "Data appended successfully".data),
          ("path".data, pathV.getD Json.null), ("type".data, tag),
          ("size".data, Json.num payload.length)])⟩,
          fsWrite st full newContent, [.appendFile full payload]⟩

/-- `POST /copyFile` (lines 358-366). -/
def copyFileHandler (base : JStr) : Request → FsState → HOut := fun req st =>
  match jsonParse req.body with
  | none => ⟨.error ⟨"Unexpected token in JSON".data⟩, st, []⟩
  | some body =>
    match getField body "src".data with
    | .error e => ⟨.error e, st, []⟩
    | .ok srcV =>
      match resolveJs base srcV with
      | .error e => ⟨.error e, st, []⟩
      | .ok srcP =>
        match resolveJs base (getFieldD body "dest".data) with
        | .error e => ⟨.error e, st, []⟩
        | .ok destP =>
          let flagsV := (getFieldD body "flags".data).getD (Json.num 0)
          match flagsV with
          | .num k =>
            match fsRead st srcP with
            | none => ⟨.error enoent, st, [.copyFile srcP destP]⟩
            | some content =>
              if k.emod 2 = 1 ∧ fsRead st destP ≠ none then
                ⟨.error ⟨"EEXIST: file already exists".data⟩, st, [.copyFile srcP destP]⟩
              else
                ⟨.ok ⟨200, some (Json.obj [
                  ("message".data, Json.str "File copied successfully".data),
                  ("src".data, srcV.getD Json.null),
                  ("dest".data, (getFieldD body "dest".data).getD Json.null)])⟩,
                  fsWrite st destP content, [.copyFile srcP destP]⟩
          | _ => ⟨.error ⟨"The flags argument must be of type number".data⟩, st, []⟩

/-- Extract the boolean option passed straight to a primitive (`recursive`,
`force`): absent means the stated default, a boolean is used as is, anything
else makes the primitive throw `ERR_INVALID_ARG_TYPE`. -/
def boolOption (v : JsVal) (dflt : Bool) : Except JsErr Bool :=
  match v with
  | none => .ok dflt
  | some (.bool b) => .ok b
  | some _ => .error ⟨"The recursive option must be of type boolean".data⟩

/-- `POST /mkdir` (lines 369-376). -/
def mkdirHandler (base : JStr) : Request → FsState → HOut := fun req st =>
  match jsonParse req.body with
  | none => ⟨.error ⟨"Unexpected token in JSON".data⟩, st, []⟩
  | some body =>
    match getField body "path".data with
    | .error e => ⟨.error e, st, []⟩
    | .ok pathV =>
      match resolveJs base pathV with
      | .error e => ⟨.error e, st, []⟩
      | .ok full =>
        match boolOption (getFieldD body "recursive".data) true with
        | .error e => ⟨.error e, st, []⟩
        | .ok rec2 =>
          let okResp : Response := ⟨200, some (Json.obj [
            ("message".data, Json.str "Directory created".data),
            ("path".data, pathV.getD Json.null)])⟩
          if isDir st full then
            if rec2 then ⟨.ok okResp, st, [.mkdir full rec2]⟩
            else ⟨.error ⟨"EEXIST: file already exists".data⟩, st, [.mkdir full rec2]⟩
          else if fsRead st full ≠ none then
            ⟨.error ⟨"EEXIST: file already exists".data⟩, st, [.mkdir full rec2]⟩
          else if rec2 ∨ isDir st (parentDir full) then
            ⟨.ok okResp, ⟨st.files, full :: st.dirs⟩, [.mkdir full rec2]⟩
          else ⟨.error enoent, st, [.mkdir full rec2]⟩

/-- `DELETE /rmdir` (lines 379-386). -/
def rmdirHandler (base : JStr) : Request → FsState → HOut := fun req st =>
  match jsonParse req.body with
  | none => ⟨.error ⟨"Unexpected token in JSON".data⟩, st, []⟩
  | some body =>
    match getField body "path".data with
    | .error e => ⟨.error e, st, []⟩
    | .ok pathV =>
      match resolveJs base pathV with
      | .error e => ⟨.error e, st, []⟩
      | .ok full =>
        match boolOption (getFieldD body "recursive".data) false with
        | .error e => ⟨.error e, st, []⟩
        | .ok rec2 =>
          if isDir st full then
            if rec2 = false ∧ hasDescendant st full then
              ⟨.error ⟨"ENOTEMPTY: directory not empty".data⟩, st, [.rmdir full rec2]⟩
            else
              ⟨.ok ⟨200, some (Json.obj [
                ("message".data, Json.str "Directory removed".data),
                ("path".data, pathV.getD Json.null)])⟩,
                removeTree st full, [.rmdir full rec2]⟩
          else if fsRead st full ≠ none then
            ⟨.error ⟨"ENOTDIR: not a directory".data⟩, st, [.rmdir full rec2]⟩
          else ⟨.error enoent, st, [.rmdir full rec2]⟩

/-- `DELETE /rm` (lines 389-396). -/
def rmHandler (base : JStr) : Request → FsState → HOut := fun req st =>
  match jsonParse req.body with
  | none => ⟨.error ⟨"Unexpected token in JSON".data⟩, st, []⟩
  | some body =>
    match getField body "path".data with
    | .error e => ⟨.error e, st, []⟩
    | .ok pathV =>
      match resolveJs base pathV with
      | .error e => ⟨.error e, st, []⟩
      | .ok full =>
        match boolOption (getFieldD body "recursive".data) false with
        | .error e => ⟨.error e, st, []⟩
        | .ok rec2 =>
          match boolOption (getFieldD body "force".data) false with
          | .error e => ⟨.error e, st, []⟩
          | .ok force =>
            let okResp : Response := ⟨200, some (Json.obj [
              ("message".data, Json.str "Removed successfully".data),
              ("path".data, pathV.getD Json.null)])⟩
            if fsRead st full ≠ none then
              ⟨.ok okResp,
                ⟨st.files.filter (fun f => decide (f.1 ≠ full)), st.dirs⟩,
                [.rm full rec2 force]⟩
            else if isDir st full then
              if rec2 then ⟨.ok okResp, removeTree st full, [.rm full rec2 force]⟩
              else ⟨.error ⟨"ERR_FS_EISDIR: is a directory".data⟩, st, [.rm full rec2 force]⟩
            else if force then ⟨.ok okResp, st, [.rm full rec2 force]⟩
            else ⟨.error enoent, st, [.rm full rec2 force]⟩

/-- `PUT /rename` (lines 399-407). -/
def renameHandler (base : JStr) : Request → FsState → HOut := fun req st =>
  match jsonParse req.body with
  | none => ⟨.error ⟨"Unexpected token in JSON".data⟩, st, []⟩
  | some body =>
    match getField body "oldPath".data with
    | .error e => ⟨.error e, st, []⟩
    | .ok oldV =>
      match resolveJs base oldV with
      | .error e => ⟨.error e, st, []⟩
      | .ok oldP =>
        match resolveJs base (getFieldD body "newPath".data) with
        | .error e => ⟨.error e, st, []⟩
        | .ok newP =>
          let okResp : Response := ⟨200, some (Json.obj [
            ("message".data, Json.str "Renamed successfully".data),
            ("oldPath".data, oldV.getD Json.null),
            ("newPath".data, (getFieldD body "newPath".data).getD Json.null)])⟩
          match fsRead st oldP with
          | some content =>
            ⟨.ok okResp,
              fsWrite ⟨st.files.filter (fun f => decide (f.1 ≠ oldP)), st.dirs⟩ newP content,
              [.rename oldP newP]⟩
          | none =>
            if isDir st oldP then
              ⟨.ok okResp,
                ⟨st.files.map (fun f =>
                    if (oldP ++ ['/']).isPrefixOf f.1
                    then (newP ++ f.1.drop oldP.length, f.2) else f),
                  st.dirs.map (fun q =>
                    if q = oldP then newP
                    else if (oldP ++ ['/']).isPrefixOf q
                    then newP ++ q.drop oldP.length else q)⟩,
                [.rename oldP newP]⟩
            else ⟨.error enoent, st, [.rename oldP newP]⟩

/-- `DELETE /unlink` (lines 410-417). -/
def unlinkHandler (base : JStr) : Request → FsState → HOut := fun req st =>
  match jsonParse req.body with
  | none => ⟨.error ⟨"Unexpected token in JSON".data⟩, st, []⟩
  | some body =>
    match getField body "path".data with
    | .error e => ⟨.error e, st, []⟩
    | .ok pathV =>
      match resolveJs base pathV with
      | .error e => ⟨.error e, st, []⟩
      | .ok full =>
        if fsRead st full ≠ none then
          ⟨.ok ⟨200, some (Json.obj [
            ("message".data, Json.str "File deleted".data),
            ("path".data, pathV.getD Json.null)])⟩,
            ⟨st.files.filter (fun f => decide (f.1 ≠ full)), st.dirs⟩, [.unlink full]⟩
        else if isDir st full then
          ⟨.error ⟨"EPERM: operation not permitted".data⟩, st, [.unlink full]⟩
        else ⟨.error enoent, st, [.unlink full]⟩

/-! ## Dispatch (CLI server, part_000 lines 156-204; Vite middleware,
part_001 lines 31-61) -/
/-- The fixed route table of `createFsHandlers`. -/
def routeHandler (base : JStr) (method path : JStr) :
    Option (Request → FsState → HOut) :=
  if method = "GET".data ∧ path = "/".data then some (rootHandler base)
  else if method = "GET".data ∧ path = "/methods".data then some methodsHandler
  else if method = "GET".data ∧ path = "/readFile".data then some (readFileHandler base)
  else if method = "GET".data ∧ path = "/readdir".data then some (readdirHandler base)
  else if method = "GET".data ∧ path = "/stat".data then some (statHandler base false)
  else if method = "GET".data ∧ path = "/lstat".data then some (statHandler base true)
  else if method = "GET".data ∧ path = "/realpath".data then some (realpathHandler base)
  else if method = "GET".data ∧ path = "/readlink".data then some (readlinkHandler base)
  else if method = "POST".data ∧ path = "/writeFile".data then some (writeFileHandler base)
  else if method = "POST".data ∧ path = "/appendFile".data then some (appendFileHandler base)
  else if method = "POST".data ∧ path = "/copyFile".data then some (copyFileHandler base)
  else if method = "POST".data ∧ path = "/mkdir".data then some (mkdirHandler base)
  else if method = "DELETE".data ∧ path = "/rmdir".data then some (rmdirHandler base)
  else if method = "DELETE".data ∧ path = "/rm".data then some (rmHandler base)
  else if method = "PUT".data ∧ path = "/rename".data then some (renameHandler base)
  else if method = "DELETE".data ∧ path = "/unlink".data then some (unlinkHandler base)
  else none

/-- The 500 error envelope built by both catch blocks. -/
def errEnvelope (msg : JStr) : Json :=
  Json.obj [("error".data, Json.obj [("message".data, Json.str msg),
    ("status".data, Json.num 500)])]

def routeNotFound : Response :=
  ⟨404, some (Json.obj [("error".data, Json.str "Route not found".data)])⟩

/-- The route key computed by both entry points: strip the prefix (an empty
remainder becomes `/`) and drop the query string
(`routePath.split('?')[0]`). -/
def apiKey (pre url : JStr) : JStr :=
  (if url.drop pre.length = [] then "/".data else url.drop pre.length).takeWhile
    (fun c => decide (c ≠ '?'))

/-- The API dispatch shared by both entry points: look the route key up in the
route table, run the handler, and convert any thrown exception into a 500
response with the error envelope.  Unmatched keys yield the 404 reply. -/
def apiDispatch (base pre : JStr) (req : Request) (st : FsState) :
    Response × FsState × List FsCall :=
  match routeHandler base req.method (apiKey pre req.url) with
  | some h =>
    match h req st with
    | ⟨.ok r, st2, calls⟩ => (r, st2, calls)
    | ⟨.error e, st2, calls⟩ => (⟨500, some (errEnvelope e.message)⟩, st2, calls)
  | none => (routeNotFound, st, [])

/-- The bare 200 returned to CORS preflight requests by the CLI server. -/
def optionsResponse : Response := ⟨200, none⟩

def justFsNotFound : Response :=
  ⟨404, some (Json.obj [("error".data, Json.str "Not Found".data),
    ("message".data,
      Json.str "Running in --justfs mode. Only fs API endpoints are available.".data)])⟩

/-- The CLI server's request callback (part_000 lines 156-204) in `--justfs`
mode (static-file serving is outside the spec's scope): OPTIONS is answered
with a bare 200 before any routing, API-prefixed URLs go through the
dispatcher, and anything else gets the justfs 404. -/
def serverDispatch (base pre : JStr) (req : Request) (st : FsState) :
    Response × FsState × List FsCall :=
  if req.method = "OPTIONS".data then (optionsResponse, st, [])
  else if pre.isPrefixOf req.url then apiDispatch base pre req st
  else (justFsNotFound, st, [])

/-- The Vite middleware (part_001 lines 31-61): requests outside the API
prefix fall through to the next middleware (`none`). -/
def middlewareDispatch (base pre : JStr) (req : Request) (st : FsState) :
    Option (Response × FsState × List FsCall) :=
  if pre.isPrefixOf req.url then some (apiDispatch base pre req st)
  else none

/-- The CLI listener serving a list of requests in order: every request gets
exactly one response and the listener survives each failure. -/
def serveAll (base pre : JStr) : List Request → FsState → List Response × FsState
  | [], st => ([], st)
  | r :: rs, st =>
    let out := serverDispatch base pre r st
    let rest := serveAll base pre rs out.2.1
    (out.1 :: rest.1, rest.2)

/-- The classification tag of the spec's content-type decision table (spec
section 4.2), transcribed from the spec's words for comparison with the
decoder: the rows are tried top to bottom and matched by substring. -/
def specTableTag (ct : JStr) : JStr :=
  if binaryCt ct then "binary".data
  else if ctInc ct "text/plain".data then "text".data
  else if ctInc ct "application/json".data then "json".data
  else "unknown".data

/-- The claimed readdir listing (C10's words): dirent objects exactly when
the `withFileTypes` query parameter equals the string `true`; plain names for
every other value and when the parameter is absent. -/
def readdirClaimedFiles (st : FsState) (full : JStr) (wftParam : Option JStr) : Json :=
  if wftParam = some "true".data
  then Json.arr ((fsChildren st full).map (direntJson full))
  else Json.arr ((fsChildren st full).map Json.str)

/-- The structured body of the spec's JSON round-trip test, with `data`
generalized to an arbitrary value `v`. -/
def jsonWriteBody (v : Json) : Json :=
  Json.obj [("path".data, Json.str "data.json".data), ("data".data, v),
    ("type".data, Json.str "json".data)]

/-- The round-trip write request: the structured body serialized as the
request payload, sent as `application/json` with no query string. -/
def jsonWriteReq (v : Json) : Request :=
  ⟨"POST".data, "/writeFile".data, some "application/json".data,
   strf 0 (jsonWriteBody v)⟩

/-- The round-trip read-back request. -/
def jsonReadReq : Request :=
  ⟨"GET".data, "/readFile?path=data.json".data, none, []⟩

/-- The status code of a handler result that is a response (`none` for a
thrown exception). -/
def resultStatus : Except JsErr Response → Option Nat
  | .ok r => some r.status
  | .error _ => none

/-- The amended BadRequest condition for a structured write/append body
(`application/json`, no `path` query parameter): the raw body is empty, the
`path` field is absent or falsy, the `data` field is absent or null, or the
decoded payload is zero bytes.  (`false` on inputs that make the handler
throw instead of replying 400.) -/
def jsonBodyRejected (raw : JStr) : Bool :=
  if raw = [] then true
  else
    match jsonParse raw with
    | none => false
    | some body =>
      match getField body "path".data with
      | .error _ => false
      | .ok pv =>
        if jsTruthy pv then
          match getFieldD body "data".data with
          | none => true
          | some Json.null => true
          | some d =>
            match structuredPayload d (getFieldD body "type".data)
                (getFieldD body "encoding".data) with
            | .error _ => false
            | .ok payload => decide (payload.length = 0)
        else true

/-- The write body of the C8 counterexample: `path` present and truthy,
`data` present and non-null, but the empty string. -/
def emptyDataRaw : JStr :=
  strf 0 (Json.obj [("path".data, Json.str "a.txt".data), ("data".data, Json.str [])])

def emptyDataReq : Request :=
  ⟨"POST".data, "/writeFile".data, some "application/json".data, emptyDataRaw⟩

/-! ## Theorems -/

/-! ## Lemmas about the segment operations -/
theorem splitSegs_ne_nil (l : JStr) : splitSegs l ≠ [] := by
  cases l with
  | nil => simp [splitSegs]
  | cons c rest =>
    simp only [splitSegs]
    split
    · simp
    · split <;> simp

theorem splitSegs_append (a b : JStr) :
    splitSegs (a ++ '/' :: b) = splitSegs a ++ splitSegs b := by
  induction a with
  | nil => simp [splitSegs]
  | cons c a ih =>
    by_cases hc : c = '/'
    · subst hc; simp [splitSegs, ih]
    · rw [List.cons_append]
      simp only [splitSegs, if_neg hc, ih]
      cases h : splitSegs a with
      | nil => exact absurd h (splitSegs_ne_nil a)
      | cons s ss => simp

theorem not_slash_mem_splitSegs (l : JStr) : ∀ s ∈ splitSegs l, '/' ∉ s := by
  induction l with
  | nil =>
    intro s hs
    simp [splitSegs] at hs
    subst hs; simp
  | cons c rest ih =>
    intro s hs
    by_cases hc : c = '/'
    · subst hc
      simp [splitSegs] at hs
      rcases hs with rfl | hs
      · simp
      · exact ih s hs
    · simp only [splitSegs, if_neg hc] at hs
      cases h : splitSegs rest with
      | nil => exact absurd h (splitSegs_ne_nil rest)
      | cons t ts =>
        rw [h] at hs
        rcases List.mem_cons.mp hs with rfl | hs
        · intro hmem
          rcases List.mem_cons.mp hmem with h1 | h2
          · exact hc h1.symm
          · exact ih t (h ▸ List.mem_cons_self t ts) h2
        · exact ih s (h ▸ List.mem_cons_of_mem _ hs)

theorem splitSegs_of_not_mem (s : JStr) (h : '/' ∉ s) : splitSegs s = [s] := by
  induction s with
  | nil => rfl
  | cons c rest ih =>
    have hc : c ≠ '/' := fun e => h (e ▸ List.mem_cons_self c rest)
    have hr : '/' ∉ rest := fun m => h (List.mem_cons_of_mem _ m)
    simp [splitSegs, if_neg hc, ih hr]

theorem normStep_clean (stack : List JStr) (s : JStr) (h : CleanSeg s) :
    normStep stack s = stack ++ [s] := by
  obtain ⟨h1, h2, h3, _⟩ := h
  simp [normStep, h1, h2, h3]

theorem foldl_normStep_clean (l : List JStr) (hl : ∀ s ∈ l, CleanSeg s) :
    ∀ stack, l.foldl normStep stack = stack ++ l := by
  induction l with
  | nil => simp
  | cons s rest ih =>
    intro stack
    rw [List.foldl_cons, normStep_clean _ _ (hl s (List.mem_cons_self s rest)),
        ih (fun t ht => hl t (List.mem_cons_of_mem _ ht)), List.append_assoc,
        List.singleton_append]

theorem foldl_normStep_all_clean (l : List JStr) (hl : ∀ s ∈ l, '/' ∉ s) :
    ∀ stack, (∀ s ∈ stack, CleanSeg s) → ∀ s ∈ l.foldl normStep stack, CleanSeg s := by
  induction l with
  | nil => intro stack hstack s hs; exact hstack s hs
  | cons a rest ih =>
    intro stack hstack s hs
    rw [List.foldl_cons] at hs
    refine ih (fun t ht => hl t (List.mem_cons_of_mem _ ht)) (normStep stack a) ?_ s hs
    intro t ht
    unfold normStep at ht
    split at ht
    · exact hstack t ht
    · split at ht
      · exact hstack t (List.dropLast_subset _ ht)
      · rcases List.mem_append.mp ht with h1 | h2
        · exact hstack t h1
        · have h3 := List.mem_singleton.mp h2
          rw [h3]
          rename_i hne hdd
          push_neg at hne
          exact ⟨hne.1, hne.2, hdd, hl _ (List.mem_cons_self _ rest)⟩

theorem joinSegs_ne_nil_of_cons_cons (s u : JStr) (us : List JStr) :
    joinSegs (s :: u :: us) ≠ [] := by
  cases s <;> simp [joinSegs]

theorem joinSegs_append (a b : List JStr) (ha : a ≠ []) (hb : b ≠ []) :
    joinSegs (a ++ b) = joinSegs a ++ '/' :: joinSegs b := by
  induction a with
  | nil => exact absurd rfl ha
  | cons s rest ih =>
    cases rest with
    | nil =>
      cases b with
      | nil => exact absurd rfl hb
      | cons t ts => simp [joinSegs]
    | cons u us =>
      have h2 := ih (by simp)
      cases b with
      | nil => exact absurd rfl hb
      | cons t ts =>
        rw [List.cons_append]
        show (s ++ '/' :: joinSegs (u :: us ++ t :: ts)) = _
        rw [h2]
        simp [joinSegs]

theorem splitSegs_joinSegs (segs : List JStr) (h : ∀ s ∈ segs, '/' ∉ s)
    (hne : segs ≠ []) : splitSegs (joinSegs segs) = segs := by
  induction segs with
  | nil => exact absurd rfl hne
  | cons s rest ih =>
    cases rest with
    | nil => exact splitSegs_of_not_mem s (h s (List.mem_cons_self s []))
    | cons u us =>
      have hjoin : joinSegs (s :: u :: us) = s ++ '/' :: joinSegs (u :: us) := rfl
      rw [hjoin, splitSegs_append, splitSegs_of_not_mem s (h s (List.mem_cons_self s _)),
          ih (fun t ht => h t (List.mem_cons_of_mem _ ht)) (by simp)]
      rfl

theorem startsWithSlash_joinSegs (r0 : JStr) (rs : List JStr)
    (h0 : r0 ≠ []) (hs : '/' ∉ r0) :
    startsWithSlash (joinSegs (r0 :: rs)) = false := by
  cases r0 with
  | nil => exact absurd rfl h0
  | cons c cs =>
    have hc : c ≠ '/' := fun e => hs (e ▸ List.mem_cons_self c cs)
    cases rs <;> simp [joinSegs, startsWithSlash, hc]

/-- Every accepted result of the path resolver has the base as a string prefix
and is a `/`-joined list of clean (normalization-stable) segments. -/
theorem resolvePath_some (base p r : JStr) (h : resolvePath base p = some r) :
    base.isPrefixOf r = true ∧
    ∃ rsegs, (∀ s ∈ rsegs, CleanSeg s) ∧ r = joinAbs rsegs := by
  unfold resolvePath at h
  split at h
  case isTrue hpre =>
    injection h with h'
    subst h'
    refine ⟨hpre, ?_⟩
    unfold nodeResolve
    split
    · exact ⟨normSegs (splitSegs (stripLeadSlash p)),
        foldl_normStep_all_clean _ (not_slash_mem_splitSegs _) [] (by simp), rfl⟩
    · exact ⟨normSegs (splitSegs (base ++ '/' :: stripLeadSlash p)),
        foldl_normStep_all_clean _ (not_slash_mem_splitSegs _) [] (by simp), rfl⟩
  case isFalse => exact absurd h (by simp)

/-- Re-resolving an already-resolved path does not leave it fixed: because the
resolver strips the leading `/` and joins the remainder onto the base again,
`resolve(root, resolve(root, p))` equals `root ++ resolve(root, p)` for every
canonical absolute root other than `/`. -/
theorem resolvePath_rebases (base p r : JStr)
    (hb : IsCleanRoot base) (h : resolvePath base p = some r) :
    resolvePath base r = some (base ++ r) ∧ base ++ r ≠ r := by
  obtain ⟨bsegs, hbne, hbclean, hbeq⟩ := hb
  obtain ⟨hpre, rsegs, hrclean, hreq⟩ := resolvePath_some _ _ _ h
  subst hbeq
  subst hreq
  have hbslash : ∀ s ∈ bsegs, '/' ∉ s := fun s hs => (hbclean s hs).2.2.2
  have hrslash : ∀ s ∈ rsegs, '/' ∉ s := fun s hs => (hrclean s hs).2.2.2
  obtain ⟨b0, bs, rfl⟩ := List.exists_cons_of_ne_nil hbne
  have hb0 : CleanSeg b0 := hbclean b0 (List.mem_cons_self _ _)
  have hjb_ne : joinSegs (b0 :: bs) ≠ [] := by
    cases bs with
    | nil => exact hb0.1
    | cons u us => exact joinSegs_ne_nil_of_cons_cons _ _ _
  have hrne : rsegs ≠ [] := by
    intro hnil
    subst hnil
    have hp := List.isPrefixOf_iff_prefix.mp hpre
    have hlen : ('/' :: joinSegs (b0 :: bs)).length ≤ ('/' :: ([] : JStr)).length :=
      hp.length_le
    simp only [List.length_cons, List.length_nil, Nat.add_le_add_iff_right] at hlen
    exact hjb_ne (List.eq_nil_of_length_eq_zero (by omega))
  obtain ⟨r0, rs, rfl⟩ := List.exists_cons_of_ne_nil hrne
  have hr0 : CleanSeg r0 := hrclean r0 (List.mem_cons_self _ _)
  have hstrip : stripLeadSlash (joinAbs (r0 :: rs)) = joinSegs (r0 :: rs) := by
    simp [stripLeadSlash, joinAbs, startsWithSlash]
  have hslash : startsWithSlash (joinSegs (r0 :: rs)) = false :=
    startsWithSlash_joinSegs r0 rs hr0.1 hr0.2.2.2
  have hsplit : splitSegs (joinAbs (b0 :: bs) ++ '/' :: joinSegs (r0 :: rs))
      = [] :: ((b0 :: bs) ++ (r0 :: rs)) := by
    show splitSegs ('/' :: (joinSegs (b0 :: bs) ++ '/' :: joinSegs (r0 :: rs))) = _
    rw [show splitSegs ('/' :: (joinSegs (b0 :: bs) ++ '/' :: joinSegs (r0 :: rs)))
        = [] :: splitSegs (joinSegs (b0 :: bs) ++ '/' :: joinSegs (r0 :: rs)) from by
          simp [splitSegs]]
    rw [splitSegs_append, splitSegs_joinSegs _ hbslash (by simp),
        splitSegs_joinSegs _ hrslash (by simp)]
  have hnorm : normSegs ([] :: ((b0 :: bs) ++ (r0 :: rs))) = (b0 :: bs) ++ (r0 :: rs) := by
    unfold normSegs
    rw [List.foldl_cons, show normStep [] [] = [] from by simp [normStep],
        foldl_normStep_clean _ (fun s hs => ?_) []]
    · simp
    · rcases List.mem_append.mp hs with h1 | h2
      · exact hbclean s h1
      · exact hrclean s h2
  have hjoin : joinAbs ((b0 :: bs) ++ (r0 :: rs))
      = joinAbs (b0 :: bs) ++ joinAbs (r0 :: rs) := by
    unfold joinAbs
    rw [joinSegs_append _ _ (by simp) (by simp)]
    rfl
  have hres : nodeResolve (joinAbs (b0 :: bs)) (joinSegs (r0 :: rs))
      = joinAbs (b0 :: bs) ++ joinAbs (r0 :: rs) := by
    unfold nodeResolve
    rw [hslash]
    simp only [Bool.false_eq_true, if_false]
    rw [hsplit, hnorm, hjoin]
  constructor
  · unfold resolvePath
    rw [hstrip, hres, if_pos (List.isPrefixOf_iff_prefix.mpr (List.prefix_append _ _))]
  · intro heq
    have hlen := congrArg List.length heq
    rw [List.length_append] at hlen
    have hz : (joinAbs (b0 :: bs)).length = 0 := by omega
    simp [joinAbs] at hz

theorem natFromRev_natDigitsRevF : ∀ fuel n, n ≤ fuel →
    natFromRev (natDigitsRevF fuel n) = n := by
  intro fuel
  induction fuel with
  | zero =>
    intro n h
    have hn : n = 0 := by omega
    subst hn
    rfl
  | succ fuel ih =>
    intro n h
    by_cases hn : n = 0
    · subst hn; rfl
    · simp only [natDigitsRevF, if_neg hn, natFromRev]
      rw [ih (n / 10) (by omega)]
      omega

theorem natDigitsRevF_lt10 : ∀ fuel n d, d ∈ natDigitsRevF fuel n → d < 10 := by
  intro fuel
  induction fuel with
  | zero => intro n d hd; simp [natDigitsRevF] at hd
  | succ fuel ih =>
    intro n d hd
    by_cases hn : n = 0
    · subst hn; simp [natDigitsRevF] at hd
    · simp only [natDigitsRevF, if_neg hn] at hd
      rcases List.mem_cons.mp hd with rfl | hd
      · omega
      · exact ih _ _ hd

theorem natDigitsRevF_ne_nil (fuel n : Nat) (h1 : 1 ≤ n) (h2 : n ≤ fuel) :
    natDigitsRevF fuel n ≠ [] := by
  cases fuel with
  | zero => omega
  | succ fuel =>
    simp only [natDigitsRevF, if_neg (by omega : ¬ n = 0)]
    simp

theorem natDigitsRevF_getLast_ne_zero : ∀ fuel n, 1 ≤ n → n ≤ fuel →
    ∀ d, (natDigitsRevF fuel n).getLast? = some d → d ≠ 0 := by
  intro fuel
  induction fuel with
  | zero => intro n h1 h2; omega
  | succ fuel ih =>
    intro n h1 h2 d hd
    simp only [natDigitsRevF, if_neg (by omega : ¬ n = 0)] at hd
    by_cases hq : n / 10 = 0
    · have : natDigitsRevF fuel (n / 10) = [] := by
        cases fuel with
        | zero => rfl
        | succ fuel => simp [natDigitsRevF, hq]
      rw [this] at hd
      simp at hd
      omega
    · have hne := natDigitsRevF_ne_nil fuel (n / 10) (by omega) (by omega)
      cases htl : natDigitsRevF fuel (n / 10) with
      | nil => exact absurd htl hne
      | cons b l =>
        rw [htl, List.getLast?_cons_cons] at hd
        exact ih (n / 10) (by omega) (by omega) d (htl ▸ hd)

/-- Every digit character is a decimal digit. -/
theorem digitChar_isDigit (d : Nat) : isDigitC (digitChar d) = true := by
  unfold digitChar
  split <;> decide

theorem digitChar_val (d : Nat) (h : d < 10) : (digitChar d).toNat - 48 = d := by
  interval_cases d <;> decide

theorem digitChar_ne_zero_char (d : Nat) (h1 : d ≠ 0) (h2 : d < 10) :
    digitChar d ≠ '0' := by
  interval_cases d <;> first | exact absurd rfl h1 | decide

theorem natToStr_ne_nil (n : Nat) : natToStr n ≠ [] := by
  unfold natToStr
  split
  · simp
  · rename_i hn
    have := natDigitsRevF_ne_nil n n (by omega) (Nat.le_refl n)
    simp [this]

theorem natToStr_all_digits (n : Nat) : ∀ c ∈ natToStr n, isDigitC c = true := by
  unfold natToStr
  split
  · intro c hc
    simp at hc
    subst hc
    decide
  · intro c hc
    rw [List.mem_reverse] at hc
    obtain ⟨d, _, rfl⟩ := List.mem_map.mp hc
    exact digitChar_isDigit d

theorem natToStr_head_ne_zero (n : Nat) (h : 1 ≤ n) :
    ∀ c, (natToStr n).head? = some c → c ≠ '0' := by
  intro c hc
  unfold natToStr at hc
  rw [if_neg (by omega : ¬ n = 0)] at hc
  rw [List.head?_reverse] at hc
  have hne := natDigitsRevF_ne_nil n n h (Nat.le_refl n)
  cases hl : (natDigitsRevF n n).getLast? with
  | none =>
    rw [List.getLast?_map, hl] at hc
    simp at hc
  | some d =>
    rw [List.getLast?_map, hl] at hc
    simp at hc
    have hd0 := natDigitsRevF_getLast_ne_zero n n h (Nat.le_refl n) d hl
    have hd10 : d < 10 := by
      have hmem : d ∈ natDigitsRevF n n := by
        have := List.getLast?_eq_getLast (l := natDigitsRevF n n) ?_
        · rw [hl] at this
          injection this with h2
          exact h2 ▸ List.getLast_mem _
        · exact hne
      exact natDigitsRevF_lt10 n n d hmem
    rw [← hc]
    exact digitChar_ne_zero_char d hd0 hd10

theorem foldl_digits (l : List Nat) (h : ∀ d ∈ l, d < 10) : ∀ acc : Nat,
    ((l.map digitChar).reverse).foldl (fun a c => 10 * a + (c.toNat - 48)) acc
    = acc * 10 ^ l.length + natFromRev l := by
  induction l with
  | nil => intro acc; simp [natFromRev]
  | cons d l ih =>
    intro acc
    simp only [List.map_cons, List.reverse_cons, List.foldl_append, List.foldl_cons,
      List.foldl_nil]
    rw [ih (fun e he => h e (List.mem_cons_of_mem _ he)),
        digitChar_val d (h d (List.mem_cons_self _ _))]
    simp only [natFromRev, List.length_cons, pow_succ]
    ring

theorem digitsToNat_natToStr (n : Nat) : digitsToNat (natToStr n) = n := by
  unfold natToStr
  split
  · rename_i hn; subst hn; rfl
  · rename_i hn
    unfold digitsToNat
    rw [foldl_digits _ (fun d hd => natDigitsRevF_lt10 n n d hd) 0,
        natFromRev_natDigitsRevF n n (Nat.le_refl n)]
    simp

theorem takeWhile_append_all (p : Char → Bool) (ds rest : JStr)
    (h : ∀ c ∈ ds, p c = true) (hr : ∀ c, rest.head? = some c → p c = false) :
    (ds ++ rest).takeWhile p = ds ∧ (ds ++ rest).dropWhile p = rest := by
  induction ds with
  | nil =>
    simp only [List.nil_append]
    cases rest with
    | nil => simp
    | cons c cs =>
      have := hr c rfl
      simp [List.takeWhile_cons, List.dropWhile_cons, this]
  | cons d ds ih =>
    have hd := h d (List.mem_cons_self _ _)
    obtain ⟨h1, h2⟩ := ih (fun c hc => h c (List.mem_cons_of_mem _ hc))
    simp [List.takeWhile_cons, List.dropWhile_cons, hd, h1, h2]

theorem pNat_natToStr (n : Nat) (rest : JStr) (hr : RestOk rest) :
    pNat (natToStr n ++ rest) = some (n, rest) := by
  obtain ⟨ht, hd⟩ := takeWhile_append_all isDigitC (natToStr n) rest
    (natToStr_all_digits n) (fun c hc => (hr c hc).1)
  unfold pNat
  rw [ht, hd, if_neg (natToStr_ne_nil n)]
  have hlead : ¬ ((natToStr n).head? = some '0' ∧ 2 ≤ (natToStr n).length) := by
    by_cases hn : n = 0
    · subst hn
      intro hcontra
      exact absurd hcontra.2 (by decide)
    · intro hcontra
      exact natToStr_head_ne_zero n (by omega) '0' hcontra.1 rfl
  rw [if_neg hlead]
  cases hrest : rest with
  | nil =>
    show some (digitsToNat (natToStr n), ([] : JStr)) = some (n, [])
    rw [digitsToNat_natToStr]
  | cons c cs =>
    have hcc := hr c (by rw [hrest]; rfl)
    show (if c = '.' ∨ c = 'e' ∨ c = 'E' then none
          else some (digitsToNat (natToStr n), c :: cs)) = some (n, c :: cs)
    rw [if_neg (by tauto), digitsToNat_natToStr]

theorem pNum_intToStr (n : Int) (rest : JStr) (hr : RestOk rest) :
    pNum (intToStr n ++ rest) = some (n, rest) := by
  cases n with
  | ofNat m =>
    show pNum (natToStr m ++ rest) = _
    have hhead : (natToStr m ++ rest).head? ≠ some '-' := by
      cases hns : natToStr m with
      | nil => exact absurd hns (natToStr_ne_nil m)
      | cons c cs =>
        have hc := natToStr_all_digits m c (by rw [hns]; exact List.mem_cons_self _ _)
        simp only [hns, List.cons_append, List.head?_cons]
        intro hcontra
        injection hcontra with hcontra
        subst hcontra
        exact absurd hc (by decide)
    unfold pNum
    rw [if_neg hhead, pNat_natToStr m rest hr]
    rfl
  | negSucc m =>
    show pNum (('-' :: natToStr (m + 1)) ++ rest) = _
    unfold pNum
    simp only [List.cons_append, List.head?_cons, List.tail_cons, if_pos rfl]
    rw [pNat_natToStr (m + 1) rest hr]
    simp [Int.negSucc_eq]

/-! ## String-literal round-trip lemmas -/
theorem hexVal_hexChar (d : Nat) (h : d < 16) : hexVal (hexChar d) = some d := by
  interval_cases d <;> decide

theorem hexQuad_hexChars (x y : Nat) (hx : x < 16) (hy : y < 16) (M : JStr) :
    hexQuad ('0' :: '0' :: hexChar x :: hexChar y :: M) = some (16 * x + y, M) := by
  simp only [hexQuad, show hexVal '0' = some 0 from rfl, hexVal_hexChar x hx,
    hexVal_hexChar y hy]
  norm_num

theorem unescape1_escCharOf (e d : Char) (hd : escCharOf e = some d) (M : JStr) :
    unescape1 (e :: M) = some (d, M) := by
  simp only [unescape1, hd]

theorem unescape1_u (t : Nat) (ht : t < 32) (M : JStr) :
    unescape1 ('u' :: '0' :: '0' :: hexChar (t / 16) :: hexChar (t % 16) :: M)
    = some (Char.ofNat t, M) := by
  simp only [unescape1, show escCharOf 'u' = none from rfl, if_pos rfl,
    hexQuad_hexChars (t / 16) (t % 16) (by omega) (by omega)]
  rw [show 16 * (t / 16) + t % 16 = t from by omega,
      if_pos (Or.inl (by omega : t < 55296))]
  simp

theorem pStringBodyF_quote (fuel : Nat) (M : JStr) :
    pStringBodyF (fuel + 1) (quoteC :: M) = some ([], M) := by
  simp [pStringBodyF]

theorem pStringBodyF_esc (fuel : Nat) (M M2 : JStr) (d : Char)
    (h : unescape1 M = some (d, M2)) :
    pStringBodyF (fuel + 1) (backslashC :: M)
    = (pStringBodyF fuel M2).map (fun p => (d :: p.1, p.2)) := by
  simp only [pStringBodyF, h]
  simp [show ¬ (backslashC = quoteC) from by decide]

theorem pStringBodyF_plain (fuel : Nat) (c : Char) (M : JStr)
    (h1 : c ≠ quoteC) (h2 : c ≠ backslashC) :
    pStringBodyF (fuel + 1) (c :: M)
    = (pStringBodyF fuel M).map (fun p => (c :: p.1, p.2)) := by
  simp only [pStringBodyF]
  rw [if_neg h1, if_neg h2]

theorem escChar_length_pos (c : Char) : 1 ≤ (escChar c).length := by
  unfold escChar
  split_ifs <;> simp

theorem escStr_length_ge (s : JStr) : s.length ≤ (escStr s).length := by
  induction s with
  | nil => simp [escStr]
  | cons c s ih =>
    simp only [escStr, List.length_append, List.length_cons]
    have := escChar_length_pos c
    omega

theorem pStringBodyF_escStr (s : JStr) : ∀ fuel rest, s.length + 1 ≤ fuel →
    pStringBodyF fuel (escStr s ++ quoteC :: rest) = some (s, rest) := by
  induction s with
  | nil =>
    intro fuel rest hf
    obtain ⟨f, rfl⟩ : ∃ f, fuel = f + 1 := ⟨fuel - 1, by omega⟩
    exact pStringBodyF_quote f rest
  | cons c s ih =>
    intro fuel rest hf
    obtain ⟨f, rfl⟩ : ∃ f, fuel = f + 1 := ⟨fuel - 1, by omega⟩
    have hf2 : s.length + 1 ≤ f := by
      simp only [List.length_cons] at hf
      omega
    show pStringBodyF (f + 1) ((escChar c ++ escStr s) ++ quoteC :: rest)
        = some (c :: s, rest)
    rw [List.append_assoc]
    unfold escChar
    by_cases h1 : c = quoteC
    · subst h1
      rw [if_pos rfl,
          show ([backslashC, quoteC] ++ (escStr s ++ quoteC :: rest))
            = backslashC :: quoteC :: (escStr s ++ quoteC :: rest) from rfl,
          pStringBodyF_esc f _ _ _ (unescape1_escCharOf quoteC quoteC rfl _),
          ih f rest hf2]
      rfl
    · rw [if_neg h1]
      by_cases h2 : c = backslashC
      · subst h2
        rw [if_pos rfl,
            show ([backslashC, backslashC] ++ (escStr s ++ quoteC :: rest))
              = backslashC :: backslashC :: (escStr s ++ quoteC :: rest) from rfl,
            pStringBodyF_esc f _ _ _ (unescape1_escCharOf backslashC backslashC rfl _),
            ih f rest hf2]
        rfl
      · rw [if_neg h2]
        by_cases h3 : c = Char.ofNat 8
        · subst h3
          rw [if_pos rfl,
              show ([backslashC, 'b'] ++ (escStr s ++ quoteC :: rest))
                = backslashC :: 'b' :: (escStr s ++ quoteC :: rest) from rfl,
              pStringBodyF_esc f _ _ _ (unescape1_escCharOf 'b' (Char.ofNat 8) rfl _),
              ih f rest hf2]
          rfl
        · rw [if_neg h3]
          by_cases h4 : c = Char.ofNat 9
          · subst h4
            rw [if_pos rfl,
                show ([backslashC, 't'] ++ (escStr s ++ quoteC :: rest))
                  = backslashC :: 't' :: (escStr s ++ quoteC :: rest) from rfl,
                pStringBodyF_esc f _ _ _ (unescape1_escCharOf 't' (Char.ofNat 9) rfl _),
                ih f rest hf2]
            rfl
          · rw [if_neg h4]
            by_cases h5 : c = Char.ofNat 10
            · subst h5
              rw [if_pos rfl,
                  show ([backslashC, 'n'] ++ (escStr s ++ quoteC :: rest))
                    = backslashC :: 'n' :: (escStr s ++ quoteC :: rest) from rfl,
                  pStringBodyF_esc f _ _ _ (unescape1_escCharOf 'n' (Char.ofNat 10) rfl _),
                  ih f rest hf2]
              rfl
            · rw [if_neg h5]
              by_cases h6 : c = Char.ofNat 12
              · subst h6
                rw [if_pos rfl,
                    show ([backslashC, 'f'] ++ (escStr s ++ quoteC :: rest))
                      = backslashC :: 'f' :: (escStr s ++ quoteC :: rest) from rfl,
                    pStringBodyF_esc f _ _ _ (unescape1_escCharOf 'f' (Char.ofNat 12) rfl _),
                    ih f rest hf2]
                rfl
              · rw [if_neg h6]
                by_cases h7 : c = Char.ofNat 13
                · subst h7
                  rw [if_pos rfl,
                      show ([backslashC, 'r'] ++ (escStr s ++ quoteC :: rest))
                        = backslashC :: 'r' :: (escStr s ++ quoteC :: rest) from rfl,
                      pStringBodyF_esc f _ _ _ (unescape1_escCharOf 'r' (Char.ofNat 13) rfl _),
                      ih f rest hf2]
                  rfl
                · rw [if_neg h7]
                  by_cases h8 : c.toNat < 32
                  · rw [if_pos h8]
                    show pStringBodyF (f + 1) (backslashC :: 'u' :: '0' :: '0' ::
                        hexChar (c.toNat / 16) :: hexChar (c.toNat % 16) ::
                        (escStr s ++ quoteC :: rest)) = _
                    rw [pStringBodyF_esc f _ _ _ (unescape1_u c.toNat h8 _),
                        ih f rest hf2, Char.ofNat_toNat]
                    rfl
                  · rw [if_neg h8]
                    show pStringBodyF (f + 1) (c :: (escStr s ++ quoteC :: rest)) = _
                    rw [pStringBodyF_plain f c _ h1 h2, ih f rest hf2]
                    rfl

/-- The string parser applied through its length-derived fuel wrapper. -/
theorem pStringBody_escStr (s rest : JStr) :
    pStringBody (escStr s ++ quoteC :: rest) = some (s, rest) := by
  unfold pStringBody
  apply pStringBodyF_escStr
  have := escStr_length_ge s
  simp only [List.length_append, List.length_cons]
  omega

/-! ## Whitespace and head-character lemmas -/
theorem skipWs_cons_ws (c : Char) (h : isWsC c = true) (s : JStr) :
    skipWs (c :: s) = skipWs s := by
  simp [skipWs, List.dropWhile_cons, h]

theorem skipWs_cons_not_ws (c : Char) (h : isWsC c = false) (s : JStr) :
    skipWs (c :: s) = c :: s := by
  simp [skipWs, List.dropWhile_cons, h]

theorem skipWs_spaces (n : Nat) (s : JStr) : skipWs (spaces n ++ s) = skipWs s := by
  induction n with
  | zero => simp [spaces]
  | succ n ih =>
    show skipWs (' ' :: (spaces n ++ s)) = skipWs s
    rw [skipWs_cons_ws ' ' (by decide), ih]

theorem skipWs_wsOnly (ws : JStr) (h : WsOnly ws) (s : JStr) :
    skipWs (ws ++ s) = skipWs s := by
  induction ws with
  | nil => simp
  | cons c cs ih =>
    rw [List.cons_append, skipWs_cons_ws c (h c (List.mem_cons_self _ _)),
        ih (fun d hd => h d (List.mem_cons_of_mem _ hd))]

theorem isDigitC_facts (c : Char) (h : isDigitC c = true) :
    isWsC c = false ∧ c ≠ ']' ∧ c ≠ ',' ∧ c ≠ rbraceC ∧ c ≠ quoteC ∧ c ≠ '[' ∧
      c ≠ lbraceC ∧ c ≠ 't' ∧ c ≠ 'f' ∧ c ≠ 'n' ∧ c ≠ '-' := by
  refine ⟨?_, ?_, ?_, ?_, ?_, ?_, ?_, ?_, ?_, ?_, ?_⟩ <;>
    first
      | (by_contra hw
         simp only [Bool.not_eq_false] at hw
         simp only [isWsC, decide_eq_true_eq] at hw
         rcases hw with rfl | rfl | rfl | rfl <;> exact absurd h (by decide))
      | (intro he; subst he; exact absurd h (by decide))

theorem isWsC_facts (c : Char) (h : isWsC c = true) :
    isDigitC c = false ∧ c ≠ '.' ∧ c ≠ 'e' ∧ c ≠ 'E' ∧ c ≠ '-' := by
  simp only [isWsC, decide_eq_true_eq] at h
  rcases h with rfl | rfl | rfl | rfl <;> exact ⟨by decide, by decide, by decide,
    by decide, by decide⟩

/-- A splice point at which a printed numeral may stop: nothing in the
remainder can extend the numeral. -/
theorem restOk_wsOnly (ws : JStr) (hws : WsOnly ws) (c : Char) (s : JStr)
    (hc : isDigitC c = false ∧ c ≠ '.' ∧ c ≠ 'e' ∧ c ≠ 'E' ∧ c ≠ '-') :
    RestOk (ws ++ c :: s) := by
  intro d hd
  cases ws with
  | nil =>
    simp at hd
    subst hd
    exact hc
  | cons w wrest =>
    simp at hd
    subst hd
    exact isWsC_facts w (hws w (List.mem_cons_self _ _))

theorem intToStr_shape (n : Int) :
    ∃ c cs, intToStr n = c :: cs ∧ (isDigitC c = true ∨ c = '-') := by
  cases n with
  | ofNat m =>
    show ∃ c cs, natToStr m = c :: cs ∧ _
    cases hs : natToStr m with
    | nil => exact absurd hs (natToStr_ne_nil m)
    | cons c cs =>
      exact ⟨c, cs, rfl, Or.inl (natToStr_all_digits m c (hs ▸ List.mem_cons_self _ _))⟩
  | negSucc m => exact ⟨'-', natToStr (m + 1), rfl, Or.inr rfl⟩

/-- The first character of any pretty-printed value, by shape. -/
theorem strf_head (ind : Nat) (v : Json) :
    ∃ c cs, strf ind v = c :: cs ∧
      (c = quoteC ∨ c = '[' ∨ c = lbraceC ∨ c = 't' ∨ c = 'f' ∨ c = 'n' ∨
        c = '-' ∨ isDigitC c = true) := by
  cases v with
  | null => exact ⟨'n', _, rfl, by simp⟩
  | bool b => cases b with
    | true => exact ⟨'t', _, rfl, by simp⟩
    | false => exact ⟨'f', _, rfl, by simp⟩
  | num n =>
    obtain ⟨c, cs, hshape, hd⟩ := intToStr_shape n
    refine ⟨c, cs, hshape, ?_⟩
    rcases hd with hd | hd
    · exact Or.inr (Or.inr (Or.inr (Or.inr (Or.inr (Or.inr (Or.inr hd))))))
    · exact Or.inr (Or.inr (Or.inr (Or.inr (Or.inr (Or.inr (Or.inl hd))))))
  | str s => exact ⟨quoteC, _, rfl, by simp⟩
  | arr items => cases items with
    | nil => exact ⟨'[', _, rfl, by simp⟩
    | cons v vs => exact ⟨'[', _, rfl, by simp⟩
  | obj fields => cases fields with
    | nil => exact ⟨lbraceC, _, rfl, by simp⟩
    | cons f fs =>
      obtain ⟨k, v⟩ := f
      exact ⟨lbraceC, _, rfl, by simp⟩

/-- Facts needed about any head character produced by `strf_head`. -/
theorem strf_head_facts (c : Char)
    (h : c = quoteC ∨ c = '[' ∨ c = lbraceC ∨ c = 't' ∨ c = 'f' ∨ c = 'n' ∨
      c = '-' ∨ isDigitC c = true) :
    isWsC c = false ∧ c ≠ ']' ∧ c ≠ ',' ∧ c ≠ rbraceC := by
  rcases h with rfl | rfl | rfl | rfl | rfl | rfl | rfl | h
  · exact ⟨by decide, by decide, by decide, by decide⟩
  · exact ⟨by decide, by decide, by decide, by decide⟩
  · exact ⟨by decide, by decide, by decide, by decide⟩
  · exact ⟨by decide, by decide, by decide, by decide⟩
  · exact ⟨by decide, by decide, by decide, by decide⟩
  · exact ⟨by decide, by decide, by decide, by decide⟩
  · exact ⟨by decide, by decide, by decide, by decide⟩
  · obtain ⟨h1, h2, h3, h4, _⟩ := isDigitC_facts c h
    exact ⟨h1, h2, h3, h4⟩

theorem skipWs_strf (ind : Nat) (v : Json) (X : JStr) :
    skipWs (strf ind v ++ X) = strf ind v ++ X := by
  obtain ⟨c, cs, hshape, hd⟩ := strf_head ind v
  rw [hshape, List.cons_append,
      skipWs_cons_not_ws c (strf_head_facts c hd).1]

theorem strfItems_cons (ind : Nat) (v : Json) (vs : List Json) :
    strfItems ind (v :: vs) = spaces ind ++ (strf ind v ++ strfItemsSep ind vs) := by
  cases vs <;> simp [strfItems, strfItemsSep]

theorem strfFields_cons (ind : Nat) (k : JStr) (v : Json) (fs : List (JStr × Json)) :
    strfFields ind ((k, v) :: fs)
    = spaces ind ++ ((quoteStr k ++ ':' :: ' ' :: strf ind v) ++ strfFieldsSep ind fs) := by
  cases fs <;> simp [strfFields, strfFieldsSep]

theorem skipWs_strfItems (ind : Nat) (v : Json) (vs : List Json) (K : JStr) :
    skipWs (strfItems ind (v :: vs) ++ K)
    = strf ind v ++ (strfItemsSep ind vs ++ K) := by
  rw [strfItems_cons, List.append_assoc, skipWs_spaces, List.append_assoc, skipWs_strf]

theorem skipWs_strfFields (ind : Nat) (k : JStr) (v : Json) (fs : List (JStr × Json))
    (K : JStr) :
    skipWs (strfFields ind ((k, v) :: fs) ++ K)
    = quoteStr k ++ (':' :: ' ' :: strf ind v ++ (strfFieldsSep ind fs ++ K)) := by
  rw [strfFields_cons, List.append_assoc, skipWs_spaces, List.append_assoc,
      List.append_assoc]
  show skipWs (quoteC :: _) = _
  rw [skipWs_cons_not_ws quoteC (by decide)]
  rfl

theorem wsOnly_nl_spaces (ind : Nat) : WsOnly ('\n' :: spaces ind) := by
  intro c hc
  rcases List.mem_cons.mp hc with rfl | hc
  · decide
  · rw [List.eq_of_mem_replicate hc]
    decide

theorem restOk_sep_close (ind : Nat) (vs : List Json) (ws rest : JStr)
    (hws : WsOnly ws) (c : Char)
    (hc : isDigitC c = false ∧ c ≠ '.' ∧ c ≠ 'e' ∧ c ≠ 'E' ∧ c ≠ '-') :
    RestOk (strfItemsSep ind vs ++ (ws ++ c :: rest)) := by
  cases vs with
  | nil =>
    show RestOk (ws ++ c :: rest)
    exact restOk_wsOnly ws hws c rest hc
  | cons u us =>
    intro d hd
    simp only [strfItemsSep, List.cons_append, List.head?_cons] at hd
    injection hd with hd
    subst hd
    exact ⟨by decide, by decide, by decide, by decide, by decide⟩

theorem restOk_fsep_close (ind : Nat) (fs : List (JStr × Json)) (ws rest : JStr)
    (hws : WsOnly ws) (c : Char)
    (hc : isDigitC c = false ∧ c ≠ '.' ∧ c ≠ 'e' ∧ c ≠ 'E' ∧ c ≠ '-') :
    RestOk (strfFieldsSep ind fs ++ (ws ++ c :: rest)) := by
  cases fs with
  | nil =>
    show RestOk (ws ++ c :: rest)
    exact restOk_wsOnly ws hws c rest hc
  | cons g gs =>
    intro d hd
    simp only [strfFieldsSep, List.cons_append, List.head?_cons] at hd
    injection hd with hd
    subst hd
    exact ⟨by decide, by decide, by decide, by decide, by decide⟩

mutual

theorem pVal_strf (v : Json) : ∀ fuel ind rest, jfuel v ≤ fuel → RestOk rest →
    pVal fuel (strf ind v ++ rest) = some (v, rest) := by
  cases v with
  | null =>
    intro fuel ind rest hf hr
    obtain ⟨f, rfl⟩ : ∃ f, fuel = f + 1 := ⟨fuel - 1, by simp [jfuel] at hf; omega⟩
    show pVal (f + 1) ('n' :: 'u' :: 'l' :: 'l' :: rest) = some (Json.null, rest)
    simp [pVal, show ('n' = quoteC) = False from by decide,
      show ('n' = lbraceC) = False from by decide]
  | bool b =>
    intro fuel ind rest hf hr
    obtain ⟨f, rfl⟩ : ∃ f, fuel = f + 1 := ⟨fuel - 1, by simp [jfuel] at hf; omega⟩
    cases b with
    | true =>
      show pVal (f + 1) ('t' :: 'r' :: 'u' :: 'e' :: rest) = some (Json.bool true, rest)
      simp [pVal, show ('t' = quoteC) = False from by decide,
        show ('t' = lbraceC) = False from by decide]
    | false =>
      show pVal (f + 1) ('f' :: 'a' :: 'l' :: 's' :: 'e' :: rest)
          = some (Json.bool false, rest)
      simp [pVal, show ('f' = quoteC) = False from by decide,
        show ('f' = lbraceC) = False from by decide]
  | num n =>
    intro fuel ind rest hf hr
    obtain ⟨f, rfl⟩ : ∃ f, fuel = f + 1 := ⟨fuel - 1, by simp [jfuel] at hf; omega⟩
    show pVal (f + 1) (intToStr n ++ rest) = some (Json.num n, rest)
    obtain ⟨c, cs, hshape, hd⟩ := intToStr_shape n
    have hfacts : c ≠ quoteC ∧ c ≠ '[' ∧ c ≠ lbraceC ∧ c ≠ 't' ∧ c ≠ 'f' ∧ c ≠ 'n' := by
      rcases hd with hd | hd
      · obtain ⟨_, _, _, _, h5, h6, h7, h8, h9, h10, _⟩ := isDigitC_facts c hd
        exact ⟨h5, h6, h7, h8, h9, h10⟩
      · subst hd
        exact ⟨by decide, by decide, by decide, by decide, by decide, by decide⟩
    rw [hshape, List.cons_append]
    simp only [pVal]
    rw [if_neg hfacts.1, if_neg hfacts.2.1, if_neg hfacts.2.2.1, if_neg hfacts.2.2.2.1,
        if_neg hfacts.2.2.2.2.1, if_neg hfacts.2.2.2.2.2,
        show c :: (cs ++ rest) = intToStr n ++ rest from by rw [hshape]; rfl,
        pNum_intToStr n rest hr]
    rfl
  | str s =>
    intro fuel ind rest hf hr
    obtain ⟨f, rfl⟩ : ∃ f, fuel = f + 1 := ⟨fuel - 1, by simp [jfuel] at hf; omega⟩
    show pVal (f + 1) (quoteC :: ((escStr s ++ [quoteC]) ++ rest)) = some (Json.str s, rest)
    simp only [pVal]
    rw [if_pos trivial, List.append_assoc, List.singleton_append, pStringBody_escStr s rest]
    rfl
  | arr items =>
    intro fuel ind rest hf hr
    obtain ⟨f, rfl⟩ : ∃ f, fuel = f + 1 := ⟨fuel - 1, by simp [jfuel] at hf; omega⟩
    cases items with
    | nil =>
      show pVal (f + 1) ('[' :: ']' :: rest) = some (Json.arr [], rest)
      simp only [pVal]
      rw [if_neg (by decide : ¬ ('[' = quoteC)), if_pos trivial,
          skipWs_cons_not_ws ']' (by decide)]
      rfl
    | cons v vs =>
      show pVal (f + 1) ('[' :: '\n' ::
          ((strfItems (ind + 2) (v :: vs) ++ '\n' :: (spaces ind ++ [']'])) ++ rest))
          = some (Json.arr (v :: vs), rest)
      simp only [pVal]
      rw [if_neg (by decide : ¬ ('[' = quoteC)), if_pos trivial,
          skipWs_cons_ws '\n' (by decide),
          show (strfItems (ind + 2) (v :: vs) ++ '\n' :: (spaces ind ++ [']'])) ++ rest
            = strfItems (ind + 2) (v :: vs) ++ (('\n' :: spaces ind) ++ ']' :: rest) from by
              simp,
          skipWs_strfItems]
      obtain ⟨c, cs, hshape, hdisj⟩ := strf_head (ind + 2) v
      have hfacts := strf_head_facts c hdisj
      rw [hshape, List.cons_append]
      have hitems := pItems_strf (v :: vs) (by simp) f (ind + 2)
        ('\n' :: spaces ind) rest (by simp [jfuel] at hf; omega) (wsOnly_nl_spaces ind)
      rw [skipWs_strfItems, hshape, List.cons_append] at hitems
      split
      · rename_i r heq
        injection heq with h1 h2
        exact absurd h1 hfacts.2.1
      · rw [hitems]
        rfl
  | obj fields =>
    intro fuel ind rest hf hr
    obtain ⟨f, rfl⟩ : ∃ f, fuel = f + 1 := ⟨fuel - 1, by simp [jfuel] at hf; omega⟩
    cases fields with
    | nil =>
      show pVal (f + 1) (lbraceC :: rbraceC :: rest) = some (Json.obj [], rest)
      simp only [pVal]
      rw [if_neg (by decide : ¬ (lbraceC = quoteC)),
          if_neg (by decide : ¬ (lbraceC = '[')), if_pos trivial,
          skipWs_cons_not_ws rbraceC (by decide)]
      simp
    | cons g fs =>
      obtain ⟨k, v⟩ := g
      show pVal (f + 1) (lbraceC :: '\n' ::
          ((strfFields (ind + 2) ((k, v) :: fs) ++ '\n' :: (spaces ind ++ [rbraceC])) ++ rest))
          = some (Json.obj ((k, v) :: fs), rest)
      simp only [pVal]
      rw [if_neg (by decide : ¬ (lbraceC = quoteC)),
          if_neg (by decide : ¬ (lbraceC = '[')), if_pos trivial,
          skipWs_cons_ws '\n' (by decide),
          show (strfFields (ind + 2) ((k, v) :: fs) ++ '\n' :: (spaces ind ++ [rbraceC])) ++ rest
            = strfFields (ind + 2) ((k, v) :: fs) ++ (('\n' :: spaces ind) ++ rbraceC :: rest)
            from by simp,
          skipWs_strfFields]
      have hflds := pFields_strf ((k, v) :: fs) (by simp) f (ind + 2)
        ('\n' :: spaces ind) rest (by simp [jfuel] at hf; omega) (wsOnly_nl_spaces ind)
      rw [skipWs_strfFields] at hflds
      show (if quoteC = rbraceC then some (Json.obj [], escStr k ++ [quoteC] ++
            (':' :: ' ' :: strf (ind + 2) v ++
              (strfFieldsSep (ind + 2) fs ++ ('\n' :: spaces ind ++ rbraceC :: rest))))
          else Option.map (fun p => (Json.obj p.1, p.2)) (pFields f (quoteC ::
            (escStr k ++ [quoteC] ++
              (':' :: ' ' :: strf (ind + 2) v ++
                (strfFieldsSep (ind + 2) fs ++ ('\n' :: spaces ind ++ rbraceC :: rest)))))))
          = some (Json.obj ((k, v) :: fs), rest)
      rw [if_neg (by decide : ¬ (quoteC = rbraceC)),
          show (quoteC :: (escStr k ++ [quoteC] ++
            (':' :: ' ' :: strf (ind + 2) v ++
              (strfFieldsSep (ind + 2) fs ++ ('\n' :: spaces ind ++ rbraceC :: rest)))))
            = quoteStr k ++ (':' :: ' ' :: strf (ind + 2) v ++
              (strfFieldsSep (ind + 2) fs ++ ('\n' :: spaces ind ++ rbraceC :: rest)))
            from by simp [quoteStr],
          hflds]
      rfl
  termination_by structural v

theorem pItems_strf (items : List Json) (hne : items ≠ []) : ∀ fuel ind ws rest,
    jfuelItems items ≤ fuel → WsOnly ws →
    pItems fuel (skipWs (strfItems ind items ++ (ws ++ ']' :: rest)))
    = some (items, rest) := by
  cases items with
  | nil => exact absurd rfl hne
  | cons v vs =>
    intro fuel ind ws rest hf hws
    obtain ⟨f, rfl⟩ : ∃ f, fuel = f + 1 := ⟨fuel - 1, by simp [jfuelItems] at hf; omega⟩
    rw [skipWs_strfItems]
    have hrest : RestOk (strfItemsSep ind vs ++ (ws ++ ']' :: rest)) :=
      restOk_sep_close ind vs ws rest hws ']'
        ⟨by decide, by decide, by decide, by decide, by decide⟩
    have hval := pVal_strf v f ind (strfItemsSep ind vs ++ (ws ++ ']' :: rest))
      (by simp [jfuelItems] at hf; omega) hrest
    simp only [pItems]
    rw [hval]
    cases vs with
    | nil =>
      show (match skipWs ([] ++ (ws ++ ']' :: rest)) with
        | ',' :: r2 =>
          Option.map (fun p => (v :: p.1, p.2)) (pItems f (skipWs r2))
        | ']' :: r2 => some ([v], r2)
        | x => none) = some ([v], rest)
      rw [List.nil_append, skipWs_wsOnly ws hws, skipWs_cons_not_ws ']' (by decide)]
      rfl
    | cons u us =>
      show (match skipWs (',' :: '\n' :: strfItems ind (u :: us) ++ (ws ++ ']' :: rest)) with
        | ',' :: r2 =>
          Option.map (fun p => (v :: p.1, p.2)) (pItems f (skipWs r2))
        | ']' :: r2 => some ([v], r2)
        | x => none) = some (v :: u :: us, rest)
      rw [show (',' :: '\n' :: strfItems ind (u :: us) ++ (ws ++ ']' :: rest))
            = ',' :: ('\n' :: (strfItems ind (u :: us) ++ (ws ++ ']' :: rest))) from by simp,
          skipWs_cons_not_ws ',' (by decide)]
      show Option.map (fun p => (v :: p.1, p.2))
          (pItems f (skipWs ('\n' :: (strfItems ind (u :: us) ++ (ws ++ ']' :: rest)))))
          = some (v :: u :: us, rest)
      rw [skipWs_cons_ws '\n' (by decide),
          pItems_strf (u :: us) (by simp) f ind ws rest
            (by simp [jfuelItems] at hf ⊢; omega) hws]
      rfl
  termination_by structural items

theorem pFields_strf (fields : List (JStr × Json)) (hne : fields ≠ []) :
    ∀ fuel ind ws rest,
    jfuelFields fields ≤ fuel → WsOnly ws →
    pFields fuel (skipWs (strfFields ind fields ++ (ws ++ rbraceC :: rest)))
    = some (fields, rest) := by
  cases fields with
  | nil => exact absurd rfl hne
  | cons g fs =>
    obtain ⟨k, v⟩ := g
    intro fuel ind ws rest hf hws
    obtain ⟨f, rfl⟩ : ∃ f, fuel = f + 1 := ⟨fuel - 1, by simp [jfuelFields] at hf; omega⟩
    rw [skipWs_strfFields]
    have hrest : RestOk (strfFieldsSep ind fs ++ (ws ++ rbraceC :: rest)) :=
      restOk_fsep_close ind fs ws rest hws rbraceC
        ⟨by decide, by decide, by decide, by decide, by decide⟩
    have hval := pVal_strf v f ind (strfFieldsSep ind fs ++ (ws ++ rbraceC :: rest))
      (by simp [jfuelFields] at hf; omega) hrest
    show pFields (f + 1) (quoteC :: (escStr k ++ [quoteC] ++
        (':' :: ' ' :: strf ind v ++ (strfFieldsSep ind fs ++ (ws ++ rbraceC :: rest)))))
        = some ((k, v) :: fs, rest)
    simp only [pFields]
    rw [if_pos trivial,
        show (escStr k ++ [quoteC] ++
          (':' :: ' ' :: strf ind v ++ (strfFieldsSep ind fs ++ (ws ++ rbraceC :: rest))))
          = escStr k ++ quoteC ::
            (':' :: ' ' :: strf ind v ++ (strfFieldsSep ind fs ++ (ws ++ rbraceC :: rest)))
          from by simp,
        pStringBody_escStr]
    show (match skipWs (':' :: ' ' :: strf ind v ++
          (strfFieldsSep ind fs ++ (ws ++ rbraceC :: rest))) with
      | ':' :: r2 =>
        match pVal f (skipWs r2) with
        | some (v2, r3) =>
          match skipWs r3 with
          | ',' :: r4 =>
            Option.map (fun p => ((k, v2) :: p.1, p.2)) (pFields f (skipWs r4))
          | c4 :: r4 => if c4 = rbraceC then some ([(k, v2)], r4) else none
          | [] => none
        | none => none
      | x => none) = some ((k, v) :: fs, rest)
    rw [show (':' :: ' ' :: strf ind v ++ (strfFieldsSep ind fs ++ (ws ++ rbraceC :: rest)))
          = ':' :: (' ' :: (strf ind v ++ (strfFieldsSep ind fs ++ (ws ++ rbraceC :: rest))))
          from by simp,
        skipWs_cons_not_ws ':' (by decide)]
    show (match pVal f (skipWs (' ' :: (strf ind v ++
          (strfFieldsSep ind fs ++ (ws ++ rbraceC :: rest))))) with
      | some (v2, r3) =>
        match skipWs r3 with
        | ',' :: r4 =>
          Option.map (fun p => ((k, v2) :: p.1, p.2)) (pFields f (skipWs r4))
        | c4 :: r4 => if c4 = rbraceC then some ([(k, v2)], r4) else none
        | [] => none
      | none => none) = some ((k, v) :: fs, rest)
    rw [skipWs_cons_ws ' ' (by decide), skipWs_strf, hval]
    cases fs with
    | nil =>
      show (match skipWs ([] ++ (ws ++ rbraceC :: rest)) with
        | ',' :: r4 =>
          Option.map (fun p => ((k, v) :: p.1, p.2)) (pFields f (skipWs r4))
        | c4 :: r4 => if c4 = rbraceC then some ([(k, v)], r4) else none
        | [] => none) = some ([(k, v)], rest)
      rw [List.nil_append, skipWs_wsOnly ws hws, skipWs_cons_not_ws rbraceC (by decide)]
      show (if rbraceC = ',' then
          Option.map (fun p => ((k, v) :: p.1, p.2)) (pFields f (skipWs rest))
        else if rbraceC = rbraceC then some ([(k, v)], rest) else none) = some ([(k, v)], rest)
      rw [if_neg (by decide : ¬ (rbraceC = ',')), if_pos rfl]
    | cons g2 gs =>
      obtain ⟨k2, v2⟩ := g2
      show (match skipWs (',' :: '\n' :: strfFields ind ((k2, v2) :: gs) ++
          (ws ++ rbraceC :: rest)) with
        | ',' :: r4 =>
          Option.map (fun p => ((k, v) :: p.1, p.2)) (pFields f (skipWs r4))
        | c4 :: r4 => if c4 = rbraceC then some ([(k, v)], r4) else none
        | [] => none) = some ((k, v) :: (k2, v2) :: gs, rest)
      rw [show (',' :: '\n' :: strfFields ind ((k2, v2) :: gs) ++ (ws ++ rbraceC :: rest))
            = ',' :: ('\n' :: (strfFields ind ((k2, v2) :: gs) ++ (ws ++ rbraceC :: rest)))
            from by simp,
          skipWs_cons_not_ws ',' (by decide)]
      show Option.map (fun p => ((k, v) :: p.1, p.2))
          (pFields f (skipWs ('\n' :: (strfFields ind ((k2, v2) :: gs) ++
            (ws ++ rbraceC :: rest)))))
          = some ((k, v) :: (k2, v2) :: gs, rest)
      rw [skipWs_cons_ws '\n' (by decide),
          pFields_strf ((k2, v2) :: gs) (by simp) f ind ws rest
            (by simp [jfuelFields] at hf ⊢; omega) hws]
      rfl
  termination_by structural fields

end

mutual

theorem jfuel_le_strf (v : Json) : ∀ ind, jfuel v ≤ (strf ind v).length := by
  cases v with
  | null => intro ind; simp [jfuel, strf]
  | bool b => intro ind; cases b <;> simp [jfuel, strf]
  | num n =>
    intro ind
    show jfuel (Json.num n) ≤ (intToStr n).length
    have : intToStr n ≠ [] := by
      cases n with
      | ofNat m => exact natToStr_ne_nil m
      | negSucc m => simp [intToStr]
    have := List.length_pos.mpr this
    simp [jfuel]
    omega
  | str s =>
    intro ind
    show jfuel (Json.str s) ≤ (quoteStr s).length
    simp [jfuel, quoteStr]
  | arr items =>
    intro ind
    cases items with
    | nil => simp [jfuel, jfuelItems, strf]
    | cons v vs =>
      have hi := jfuelItems_le_strf (v :: vs) (ind + 2)
      show 1 + jfuelItems (v :: vs) ≤ ('[' :: '\n' ::
          ((strfItems (ind + 2) (v :: vs) ++ '\n' :: (spaces ind ++ [']'])))).length
      simp only [List.length_cons, List.length_append]
      omega
  | obj fields =>
    intro ind
    cases fields with
    | nil => simp [jfuel, jfuelFields, strf]
    | cons g fs =>
      obtain ⟨k, v⟩ := g
      have hi := jfuelFields_le_strf ((k, v) :: fs) (ind + 2)
      show 1 + jfuelFields ((k, v) :: fs) ≤ (lbraceC :: '\n' ::
          ((strfFields (ind + 2) ((k, v) :: fs) ++ '\n' :: (spaces ind ++ [rbraceC])))).length
      simp only [List.length_cons, List.length_append]
      omega
  termination_by structural v

theorem jfuelItems_le_strf (items : List Json) :
    ∀ ind, jfuelItems items ≤ (strfItems ind items).length + 1 := by
  cases items with
  | nil => intro ind; simp [jfuelItems]
  | cons v vs =>
    intro ind
    have hv := jfuel_le_strf v ind
    rw [strfItems_cons]
    cases vs with
    | nil =>
      show 1 + max (jfuel v) (jfuelItems []) ≤ _
      simp only [jfuelItems, List.length_append, strfItemsSep, List.length_nil]
      omega
    | cons u us =>
      have hus := jfuelItems_le_strf (u :: us) ind
      show 1 + max (jfuel v) (jfuelItems (u :: us)) ≤ _
      simp only [List.length_append, strfItemsSep, List.length_cons]
      omega
  termination_by structural items

theorem jfuelFields_le_strf (fields : List (JStr × Json)) :
    ∀ ind, jfuelFields fields ≤ (strfFields ind fields).length + 1 := by
  cases fields with
  | nil => intro ind; simp [jfuelFields]
  | cons g fs =>
    obtain ⟨k, v⟩ := g
    intro ind
    have hv := jfuel_le_strf v ind
    rw [strfFields_cons]
    cases fs with
    | nil =>
      show 1 + max (jfuel v) (jfuelFields []) ≤ _
      simp only [jfuelFields, List.length_append, strfFieldsSep, List.length_nil,
        List.length_cons]
      omega
    | cons g2 gs =>
      have hgs := jfuelFields_le_strf (g2 :: gs) ind
      show 1 + max (jfuel v) (jfuelFields (g2 :: gs)) ≤ _
      simp only [List.length_append, strfFieldsSep, List.length_cons]
      omega
  termination_by structural fields

end

/-- Printing any JSON value with `JSON.stringify(v, null, 2)` and parsing the
result with `JSON.parse` recovers exactly the same value. -/
theorem jsonParse_strf (v : Json) : jsonParse (strf 0 v) = some v := by
  unfold jsonParse
  have hskip : skipWs (strf 0 v) = strf 0 v := by
    have := skipWs_strf 0 v []
    simpa using this
  rw [hskip]
  have hval := pVal_strf v ((strf 0 v).length + 1) 0 []
    (le_trans (jfuel_le_strf v 0) (by omega)) (fun c hc => by simp at hc)
  rw [List.append_nil] at hval
  rw [hval]
  rfl

/-- C1: the spec requires every path with `..` segments that lexically escapes
the confinement root to be rejected before any filesystem call.  The resolver
only checks that the base directory STRING is a prefix of the resolved path,
so `../database/x` under base `/root/data` resolves to `/root/database/x` —
outside the base directory — is accepted, and the readFile handler goes on to
invoke the filesystem primitive on the escaped path and serve the file. -/
theorem C1_escape_reaches_fs :
    resolvePath "/root/data".data "../database/x".data = some "/root/database/x".data ∧
    insideDir "/root/data".data "/root/database/x".data = false ∧
    (readFileHandler "/root/data".data
        ⟨"GET".data, "/readFile?path=../database/x".data, none, []⟩
        ⟨[("/root/database/x".data, "secret".data)], []⟩).calls
      = [FsCall.readFile "/root/database/x".data] ∧
    (readFileHandler "/root/data".data
        ⟨"GET".data, "/readFile?path=../database/x".data, none, []⟩
        ⟨[("/root/database/x".data, "secret".data)], []⟩).result
      = .ok ⟨200, some (Json.obj [("data".data, Json.str "secret".data)])⟩ :=
  ⟨rfl, rfl, rfl, rfl⟩

/-- C2: a write request whose decoded payload is zero bytes is answered with
status 400 (`No data to write`), the filesystem state is unchanged and no
filesystem primitive is invoked. -/
theorem C2_empty_write_400 (base : JStr) (req : Request) (st : FsState)
    (pathV : JsVal) (tag : Json)
    (hd : decodeWriteBody (req.contentType.getD [])
        (qlast (parseQuery req.url) "path".data) req.body = .ok pathV [] tag) :
    writeFileHandler base req st = ⟨.ok (err400 "No data to write".data), st, []⟩ := by
  dsimp only [writeFileHandler]
  rw [hd]
  rfl

theorem C2_witness :
    decodeWriteBody ((some "text/plain".data).getD [])
        (qlast (parseQuery "/writeFile?path=a.txt".data) "path".data) []
      = .ok (some (Json.str "a.txt".data)) [] (Json.str "text".data) ∧
    writeFileHandler "/data".data
        ⟨"POST".data, "/writeFile?path=a.txt".data, some "text/plain".data, []⟩ ⟨[], []⟩
      = ⟨.ok (err400 "No data to write".data), ⟨[], []⟩, []⟩ :=
  ⟨rfl, C2_empty_write_400 "/data".data
    ⟨"POST".data, "/writeFile?path=a.txt".data, some "text/plain".data, []⟩
    ⟨[], []⟩ (some (Json.str "a.txt".data)) (Json.str "text".data) rfl⟩

/-- C3 counterexample: the resolver is not idempotent.  Under base `/data`,
`a` resolves to `/data/a`, but resolving that result again yields
`/data/data/a`, not `/data/a`: the resolver strips the leading slash and
rejoins the remainder under the base. -/
theorem C3_not_idempotent :
    resolvePath "/data".data "a".data = some "/data/a".data ∧
    resolvePath "/data".data "/data/a".data = some "/data/data/a".data ∧
    some "/data/data/a".data ≠ some "/data/a".data :=
  ⟨rfl, rfl, by decide⟩

/-- C3 (amended): re-resolving an accepted result `r` never returns `r`; it
returns `base ++ r`, because the resolver strips `r`'s leading slash and joins
the remainder onto the base again.  Idempotence fails for every accepted
path under every canonical absolute root. -/
theorem C3_resolve_rebases (base p r : JStr)
    (hb : IsCleanRoot base) (h : resolvePath base p = some r) :
    resolvePath base r = some (base ++ r) ∧ resolvePath base r ≠ some r := by
  obtain ⟨h1, h2⟩ := resolvePath_rebases base p r hb h
  refine ⟨h1, fun hc => h2 ?_⟩
  exact Option.some.inj (h1.symm.trans hc)

theorem C3_witness :
    resolvePath "/data".data "a".data = some "/data/a".data ∧
    (resolvePath "/data".data "/data/a".data = some ("/data".data ++ "/data/a".data) ∧
      resolvePath "/data".data "/data/a".data ≠ some "/data/a".data) :=
  ⟨rfl, C3_resolve_rebases "/data".data "a".data "/data/a".data
    ⟨["data".data], by decide,
      by
        intro s hs
        simp only [List.mem_singleton] at hs
        subst hs
        exact ⟨by decide, by decide, by decide, by decide⟩,
      rfl⟩ rfl⟩

/-- C4: for a path without a leading separator, prepending exactly one `/`
does not change the resolver's result — the resolver strips one leading
slash before resolving. -/
theorem C4_leading_slash (base p : JStr) (hp : startsWithSlash p = false) :
    resolvePath base ('/' :: p) = resolvePath base p := by
  have h1 : stripLeadSlash ('/' :: p) = p := by
    simp [stripLeadSlash, startsWithSlash]
  have h2 : stripLeadSlash p = p := by
    simp [stripLeadSlash, hp]
  unfold resolvePath
  rw [h1, h2]

theorem C4_witness :
    startsWithSlash "a/b".data = false ∧
    resolvePath "/data".data ('/' :: "a/b".data) = resolvePath "/data".data "a/b".data :=
  ⟨rfl, C4_leading_slash "/data".data "a/b".data rfl⟩

/-- The listener answers every request in the batch: one response each. -/
theorem serveAll_length (base pre : JStr) : ∀ (reqs : List Request) (st : FsState),
    (serveAll base pre reqs st).1.length = reqs.length := by
  intro reqs
  induction reqs with
  | nil => intro st; rfl
  | cons r rs ih => intro st; simp [serveAll, ih]

/-- C5: an exception thrown inside a matched handler (by path resolution,
JSON body parsing, or the filesystem call) is caught at the dispatch boundary
of both entry points and converted into a status-500 response whose body is
the `error.message`/`error.status` envelope; and the CLI listener keeps
serving: a batch of requests always gets one response per request. -/
theorem C5_catch_to_500 (base pre : JStr) (req : Request) (st st2 : FsState)
    (hfn : Request → FsState → HOut) (e : JsErr) (calls : List FsCall)
    (reqs : List Request) (st0 : FsState)
    (hroute : routeHandler base req.method (apiKey pre req.url) = some hfn)
    (hthrow : hfn req st = ⟨.error e, st2, calls⟩) :
    apiDispatch base pre req st = (⟨500, some (errEnvelope e.message)⟩, st2, calls) ∧
    (pre.isPrefixOf req.url = true →
      middlewareDispatch base pre req st
        = some (⟨500, some (errEnvelope e.message)⟩, st2, calls)) ∧
    (serveAll base pre reqs st0).1.length = reqs.length := by
  have h1 : apiDispatch base pre req st = (⟨500, some (errEnvelope e.message)⟩, st2, calls) := by
    unfold apiDispatch
    rw [hroute]
    dsimp only
    rw [hthrow]
  refine ⟨h1, fun hp => ?_, serveAll_length base pre reqs st0⟩
  unfold middlewareDispatch
  rw [if_pos hp, h1]

theorem C5_witness :
    routeHandler "/data".data "GET".data (apiKey "/api/fs".data "/api/fs/readFile".data)
      = some (readFileHandler "/data".data) ∧
    readFileHandler "/data".data ⟨"GET".data, "/api/fs/readFile".data, none, []⟩ ⟨[], []⟩
      = ⟨.error ⟨"filePath.startsWith is not a function".data⟩, ⟨[], []⟩, []⟩ ∧
    (apiDispatch "/data".data "/api/fs".data
        ⟨"GET".data, "/api/fs/readFile".data, none, []⟩ ⟨[], []⟩
      = (⟨500, some (errEnvelope "filePath.startsWith is not a function".data)⟩, ⟨[], []⟩, []) ∧
    ("/api/fs".data.isPrefixOf "/api/fs/readFile".data = true →
      middlewareDispatch "/data".data "/api/fs".data
          ⟨"GET".data, "/api/fs/readFile".data, none, []⟩ ⟨[], []⟩
        = some (⟨500, some (errEnvelope "filePath.startsWith is not a function".data)⟩,
            ⟨[], []⟩, [])) ∧
    (serveAll "/data".data "/api/fs".data
        [⟨"GET".data, "/api/fs/readFile".data, none, []⟩,
         ⟨"GET".data, "/api/fs/readFile".data, none, []⟩] ⟨[], []⟩).1.length
      = [⟨"GET".data, "/api/fs/readFile".data, none, []⟩,
         (⟨"GET".data, "/api/fs/readFile".data, none, []⟩ : Request)].length) :=
  ⟨rfl, rfl, C5_catch_to_500 "/data".data "/api/fs".data
    ⟨"GET".data, "/api/fs/readFile".data, none, []⟩ ⟨[], []⟩ ⟨[], []⟩
    (readFileHandler "/data".data) ⟨"filePath.startsWith is not a function".data⟩ []
    [⟨"GET".data, "/api/fs/readFile".data, none, []⟩,
     ⟨"GET".data, "/api/fs/readFile".data, none, []⟩] ⟨[], []⟩ rfl rfl⟩

/-- C9 counterexample: the CLI server replies 200 to an OPTIONS request under
the API prefix whose key is in no route, before any routing happens — the
original claim's unconditional 404 for unmatched keys is false there. -/
theorem C9_options_preempts_404 :
    routeHandler "/data".data "OPTIONS".data
      (apiKey "/api/fs".data "/api/fs/nope".data) = none ∧
    serverDispatch "/data".data "/api/fs".data
        ⟨"OPTIONS".data, "/api/fs/nope".data, none, []⟩ ⟨[], []⟩
      = (optionsResponse, ⟨[], []⟩, []) ∧
    optionsResponse.status = 200 ∧ routeNotFound.status = 404 :=
  ⟨rfl, rfl, rfl, rfl⟩

/-- C9 (amended): a request under the API prefix whose method and
query-stripped route path match no entry of the route table is answered 404
`Route not found` — by the shared dispatcher, by the CLI server whenever the
method is not OPTIONS, and by the Vite middleware; no fallback handler runs
(no filesystem call, no state change).  The CLI server answers OPTIONS
requests with a bare 200 before routing. -/
theorem C9_unmatched_404 (base pre : JStr) (req : Request) (st : FsState)
    (hnone : routeHandler base req.method (apiKey pre req.url) = none) :
    apiDispatch base pre req st = (routeNotFound, st, []) ∧
    (req.method ≠ "OPTIONS".data → pre.isPrefixOf req.url = true →
      serverDispatch base pre req st = (routeNotFound, st, [])) ∧
    (pre.isPrefixOf req.url = true →
      middlewareDispatch base pre req st = some (routeNotFound, st, [])) := by
  have h1 : apiDispatch base pre req st = (routeNotFound, st, []) := by
    unfold apiDispatch
    rw [hnone]
  refine ⟨h1, fun hm hp => ?_, fun hp => ?_⟩
  · unfold serverDispatch
    rw [if_neg hm, if_pos hp, h1]
  · unfold middlewareDispatch
    rw [if_pos hp, h1]

theorem C9_witness :
    routeHandler "/data".data "PATCH".data
      (apiKey "/api/fs".data "/api/fs/readFile?path=a".data) = none ∧
    (apiDispatch "/data".data "/api/fs".data
        ⟨"PATCH".data, "/api/fs/readFile?path=a".data, none, []⟩ ⟨[], []⟩
      = (routeNotFound, ⟨[], []⟩, []) ∧
    (("PATCH".data : JStr) ≠ "OPTIONS".data →
      "/api/fs".data.isPrefixOf "/api/fs/readFile?path=a".data = true →
      serverDispatch "/data".data "/api/fs".data
          ⟨"PATCH".data, "/api/fs/readFile?path=a".data, none, []⟩ ⟨[], []⟩
        = (routeNotFound, ⟨[], []⟩, [])) ∧
    ("/api/fs".data.isPrefixOf "/api/fs/readFile?path=a".data = true →
      middlewareDispatch "/data".data "/api/fs".data
          ⟨"PATCH".data, "/api/fs/readFile?path=a".data, none, []⟩ ⟨[], []⟩
        = some (routeNotFound, ⟨[], []⟩, []))) :=
  ⟨rfl, C9_unmatched_404 "/data".data "/api/fs".data
    ⟨"PATCH".data, "/api/fs/readFile?path=a".data, none, []⟩ ⟨[], []⟩ rfl⟩

/-- C6 (amended): the body decoder follows the content-type decision table
with top-to-bottom precedence and substring matching, passing the raw body
verbatim with the row's tag — with the json row taken only when the `path`
query parameter is present AND nonempty (truthy), not merely present; an
`application/json` request with an absent or empty `path` parameter goes to
the structured-body parse instead. -/
theorem C6_content_type_table (ct raw : JStr) (qpath : Option JStr)
    (hjson : ctInc ct "application/json".data = true →
      binaryCt ct = true ∨ ctInc ct "text/plain".data = true ∨
        jsTruthy (qpath.map Json.str) = true) :
    decodeWriteBody ct qpath raw
      = .ok (qpath.map Json.str) raw (Json.str (specTableTag ct)) := by
  unfold decodeWriteBody specTableTag
  by_cases h1 : binaryCt ct = true
  · rw [if_pos h1, if_pos h1]
  · rw [if_neg h1, if_neg h1]
    by_cases h2 : ctInc ct "text/plain".data = true
    · rw [if_pos h2, if_pos h2]
    · rw [if_neg h2, if_neg h2]
      by_cases h3 : ctInc ct "application/json".data = true
      · rw [if_pos h3, if_pos h3]
        rcases hjson h3 with h | h | h
        · exact absurd h h1
        · exact absurd h h2
        · rw [if_pos h]
      · rw [if_neg h3, if_neg h3]

theorem C6_witness :
    (ctInc "application/json".data "application/json".data = true →
      binaryCt "application/json".data = true ∨
      ctInc "application/json".data "text/plain".data = true ∨
      jsTruthy ((some "a.txt".data).map Json.str) = true) ∧
    decodeWriteBody "application/json".data (some "a.txt".data) "hello".data
      = .ok ((some "a.txt".data).map Json.str) "hello".data
          (Json.str (specTableTag "application/json".data)) :=
  ⟨fun _ => Or.inr (Or.inr (by decide)),
   C6_content_type_table "application/json".data "hello".data (some "a.txt".data)
     (fun _ => Or.inr (Or.inr (by decide)))⟩

/-- C6 counterexample: an `application/json` request with the `path` query
parameter PRESENT but empty (`?path=`) does not get the json raw-passthrough
row of the table: the decoder requires a truthy path and falls through to the
structured-body parse, here ending in a 400 `Path is required` reply. -/
theorem C6_empty_path_param :
    qlast (parseQuery "/writeFile?path=".data) "path".data = some [] ∧
    decodeWriteBody "application/json".data (some []) "1".data
      = DecodeOut.reply (err400 "Path is required".data) :=
  ⟨rfl, rfl⟩

/-- Resolving the default path `.` lands exactly on the confinement root, for
every canonical absolute root. -/
theorem resolvePath_dot (base : JStr) (hb : IsCleanRoot base) :
    resolvePath base ".".data = some base := by
  obtain ⟨segs, hne, hclean, rfl⟩ := hb
  have hbslash : ∀ s ∈ segs, '/' ∉ s := fun s hs => (hclean s hs).2.2.2
  have hsplit : splitSegs (joinAbs segs ++ '/' :: ['.']) = [] :: (segs ++ [['.']]) := by
    show splitSegs ('/' :: (joinSegs segs ++ '/' :: ['.'])) = _
    rw [show splitSegs ('/' :: (joinSegs segs ++ '/' :: ['.']))
        = [] :: splitSegs (joinSegs segs ++ '/' :: ['.']) from by simp [splitSegs]]
    rw [splitSegs_append, splitSegs_joinSegs _ hbslash hne]
    rfl
  have hnorm : normSegs ([] :: (segs ++ [['.']])) = segs := by
    unfold normSegs
    rw [List.foldl_cons, show normStep [] [] = [] from by simp [normStep],
        List.foldl_append, foldl_normStep_clean segs hclean []]
    simp [normStep]
  have hres : nodeResolve (joinAbs segs) ['.'] = joinAbs segs := by
    unfold nodeResolve
    rw [show startsWithSlash ['.'] = false from rfl]
    simp only [Bool.false_eq_true, if_false]
    rw [show joinAbs segs ++ '/' :: ['.'] = joinAbs segs ++ '/' :: ['.'] from rfl,
        hsplit, hnorm]
  show resolvePath (joinAbs segs) ['.'] = some (joinAbs segs)
  unfold resolvePath
  rw [show stripLeadSlash ['.'] = ['.'] from rfl, hres,
      if_pos (List.isPrefixOf_iff_prefix.mpr (List.prefix_refl _))]

/-- C10: the readdir handler produces the with-file-types listing exactly when
the `withFileTypes` query parameter is the exact string `true` (any other
value, or its absence, yields plain names), passes the same exact-match flag
to the filesystem primitive, and an absent `path` parameter defaults to `.`,
which resolves to the confinement root. -/
theorem C10_readdir_listing (base : JStr) (req : Request) (st : FsState) (full : JStr)
    (hb : IsCleanRoot base)
    (hres : resolvePath base
      ((qlast (parseQuery req.url) "path".data).getD ".".data) = some full)
    (hdir : isDir st full = true) :
    (readdirHandler base req st).result = .ok ⟨200, some (Json.obj [("files".data,
      readdirClaimedFiles st full (qlast (parseQuery req.url) "withFileTypes".data))])⟩ ∧
    (readdirHandler base req st).calls
      = [FsCall.readdir full
          (qlast (parseQuery req.url) "withFileTypes".data = some "true".data)] ∧
    (qlast (parseQuery req.url) "path".data = none →
      resolvePath base ".".data = some base) := by
  have hwft : ((qlast (parseQuery req.url) "withFileTypes".data).getD "false".data
      = "true".data) ↔
      (qlast (parseQuery req.url) "withFileTypes".data = some "true".data) := by
    cases h : qlast (parseQuery req.url) "withFileTypes".data with
    | none => simp [Option.getD]
    | some w => simp [Option.getD]
  refine ⟨?_, ?_, fun _ => resolvePath_dot base hb⟩
  · dsimp only [readdirHandler]
    rw [hres]
    dsimp only
    rw [if_pos hdir]
    dsimp only [readdirClaimedFiles]
    by_cases hw : qlast (parseQuery req.url) "withFileTypes".data = some "true".data
    · rw [if_pos (hwft.mpr hw), if_pos hw]
    · rw [if_neg (fun hc => hw (hwft.mp hc)), if_neg hw]
  · dsimp only [readdirHandler]
    rw [hres]
    dsimp only
    rw [if_pos hdir]
    dsimp only
    rw [show ((qlast (parseQuery req.url) "withFileTypes".data).getD "false".data
        = "true".data : Bool)
      = (qlast (parseQuery req.url) "withFileTypes".data = some "true".data : Bool) from
      decide_eq_decide.mpr hwft]

theorem C10_witness :
    IsCleanRoot "/data".data ∧
    resolvePath "/data".data
      ((qlast (parseQuery "/readdir?withFileTypes=true".data) "path".data).getD ".".data)
      = some "/data".data ∧
    isDir (⟨[("/data/a.txt".data, "x".data)], ["/data".data]⟩ : FsState) "/data".data
      = true ∧
    ((readdirHandler "/data".data ⟨"GET".data, "/readdir?withFileTypes=true".data, none, []⟩
        ⟨[("/data/a.txt".data, "x".data)], ["/data".data]⟩).result
      = .ok ⟨200, some (Json.obj [("files".data,
          readdirClaimedFiles ⟨[("/data/a.txt".data, "x".data)], ["/data".data]⟩
            "/data".data
            (qlast (parseQuery "/readdir?withFileTypes=true".data) "withFileTypes".data))])⟩ ∧
    (readdirHandler "/data".data ⟨"GET".data, "/readdir?withFileTypes=true".data, none, []⟩
        ⟨[("/data/a.txt".data, "x".data)], ["/data".data]⟩).calls
      = [FsCall.readdir "/data".data
          (qlast (parseQuery "/readdir?withFileTypes=true".data) "withFileTypes".data
            = some "true".data)] ∧
    (qlast (parseQuery "/readdir?withFileTypes=true".data) "path".data = none →
      resolvePath "/data".data ".".data = some "/data".data)) :=
  ⟨⟨["data".data], by decide,
    by
      intro s hs
      simp only [List.mem_singleton] at hs
      subst hs
      exact ⟨by decide, by decide, by decide, by decide⟩,
    rfl⟩,
   rfl, rfl,
   C10_readdir_listing "/data".data
     ⟨"GET".data, "/readdir?withFileTypes=true".data, none, []⟩
     ⟨[("/data/a.txt".data, "x".data)], ["/data".data]⟩ "/data".data
     ⟨["data".data], by decide,
      by
        intro s hs
        simp only [List.mem_singleton] at hs
        subst hs
        exact ⟨by decide, by decide, by decide, by decide⟩,
      rfl⟩
     rfl rfl⟩

theorem strf_ne_nil (ind : Nat) (v : Json) : strf ind v ≠ [] := by
  obtain ⟨c, cs, h, _⟩ := strf_head ind v
  rw [h]
  simp

theorem strf_length_ne_zero (ind : Nat) (v : Json) : (strf ind v).length ≠ 0 := by
  obtain ⟨c, cs, h, _⟩ := strf_head ind v
  rw [h]
  simp

/-- Decoding the serialized round-trip body lands in the structured branch and
re-serializes the `data` field as pretty-printed JSON. -/
theorem decodeWriteBody_jsonWrite (v : Json) (hv : v ≠ Json.null) :
    decodeWriteBody "application/json".data none (strf 0 (jsonWriteBody v))
      = .ok (some (Json.str "data.json".data)) (strf 0 v) (Json.str "json".data) := by
  cases v with
  | null => exact absurd rfl hv
  | bool b =>
    unfold decodeWriteBody
    rw [if_neg (show ¬(binaryCt "application/json".data = true) from by decide),
        if_neg (show ¬(ctInc "application/json".data "text/plain".data = true) from by decide),
        if_pos (show ctInc "application/json".data "application/json".data = true from by decide),
        if_neg (show ¬(jsTruthy (Option.map Json.str none) = true) from by decide),
        if_neg (strf_ne_nil 0 _), jsonParse_strf]
    rfl
  | num n =>
    unfold decodeWriteBody
    rw [if_neg (show ¬(binaryCt "application/json".data = true) from by decide),
        if_neg (show ¬(ctInc "application/json".data "text/plain".data = true) from by decide),
        if_pos (show ctInc "application/json".data "application/json".data = true from by decide),
        if_neg (show ¬(jsTruthy (Option.map Json.str none) = true) from by decide),
        if_neg (strf_ne_nil 0 _), jsonParse_strf]
    rfl
  | str s =>
    unfold decodeWriteBody
    rw [if_neg (show ¬(binaryCt "application/json".data = true) from by decide),
        if_neg (show ¬(ctInc "application/json".data "text/plain".data = true) from by decide),
        if_pos (show ctInc "application/json".data "application/json".data = true from by decide),
        if_neg (show ¬(jsTruthy (Option.map Json.str none) = true) from by decide),
        if_neg (strf_ne_nil 0 _), jsonParse_strf]
    rfl
  | arr items =>
    unfold decodeWriteBody
    rw [if_neg (show ¬(binaryCt "application/json".data = true) from by decide),
        if_neg (show ¬(ctInc "application/json".data "text/plain".data = true) from by decide),
        if_pos (show ctInc "application/json".data "application/json".data = true from by decide),
        if_neg (show ¬(jsTruthy (Option.map Json.str none) = true) from by decide),
        if_neg (strf_ne_nil 0 _), jsonParse_strf]
    rfl
  | obj fields =>
    unfold decodeWriteBody
    rw [if_neg (show ¬(binaryCt "application/json".data = true) from by decide),
        if_neg (show ¬(ctInc "application/json".data "text/plain".data = true) from by decide),
        if_pos (show ctInc "application/json".data "application/json".data = true from by decide),
        if_neg (show ¬(jsTruthy (Option.map Json.str none) = true) from by decide),
        if_neg (strf_ne_nil 0 _), jsonParse_strf]
    rfl

/-- C7: writing a structured JSON body with `type = json` stores exactly the
pretty-printed serialization of the `data` field, reading the path back
returns that stored text, and parsing it recovers a value deep-equal to the
original `data` — a round trip up to JSON equivalence. -/
theorem C7_json_round_trip (v : Json) (hv : v ≠ Json.null) (st0 : FsState) :
    writeFileHandler "/data".data (jsonWriteReq v) st0
      = ⟨.ok ⟨200, some (Json.obj [
          ("message".data, Json.str "File written successfully".data),
          ("path".data, Json.str "data.json".data),
          ("type".data, Json.str "json".data),
          ("size".data, Json.num (strf 0 v).length)])⟩,
        fsWrite st0 "/data/data.json".data (strf 0 v),
        [FsCall.writeFile "/data/data.json".data (strf 0 v)]⟩ ∧
    (readFileHandler "/data".data jsonReadReq
        (fsWrite st0 "/data/data.json".data (strf 0 v))).result
      = .ok ⟨200, some (Json.obj [("data".data, Json.str (strf 0 v))])⟩ ∧
    jsonParse (strf 0 v) = some v := by
  refine ⟨?_, ?_, jsonParse_strf v⟩
  · dsimp only [writeFileHandler, jsonWriteReq]
    rw [show qlast (parseQuery "/writeFile".data) "path".data = none from rfl]
    simp only [Option.getD_some]
    rw [decodeWriteBody_jsonWrite v hv]
    dsimp only
    rw [if_neg (strf_length_ne_zero 0 v)]
    rfl
  · rfl

theorem C7_witness :
    ((Json.obj [("name".data, Json.str "John".data), ("age".data, Json.num 30)])
        ≠ Json.null) ∧
    (writeFileHandler "/data".data
        (jsonWriteReq (Json.obj
          [("name".data, Json.str "John".data), ("age".data, Json.num 30)])) ⟨[], []⟩
      = ⟨.ok ⟨200, some (Json.obj [
          ("message".data, Json.str "File written successfully".data),
          ("path".data, Json.str "data.json".data),
          ("type".data, Json.str "json".data),
          ("size".data, Json.num (strf 0 (Json.obj
            [("name".data, Json.str "John".data), ("age".data, Json.num 30)])).length)])⟩,
        fsWrite ⟨[], []⟩ "/data/data.json".data (strf 0 (Json.obj
          [("name".data, Json.str "John".data), ("age".data, Json.num 30)])),
        [FsCall.writeFile "/data/data.json".data (strf 0 (Json.obj
          [("name".data, Json.str "John".data), ("age".data, Json.num 30)]))]⟩ ∧
    (readFileHandler "/data".data jsonReadReq
        (fsWrite ⟨[], []⟩ "/data/data.json".data (strf 0 (Json.obj
          [("name".data, Json.str "John".data), ("age".data, Json.num 30)])))).result
      = .ok ⟨200, some (Json.obj [("data".data, Json.str (strf 0 (Json.obj
          [("name".data, Json.str "John".data), ("age".data, Json.num 30)])))])⟩ ∧
    jsonParse (strf 0 (Json.obj
        [("name".data, Json.str "John".data), ("age".data, Json.num 30)]))
      = some (Json.obj [("name".data, Json.str "John".data), ("age".data, Json.num 30)])) :=
  ⟨fun h => Json.noConfusion h,
   C7_json_round_trip
     (Json.obj [("name".data, Json.str "John".data), ("age".data, Json.num 30)])
     (fun h => Json.noConfusion h) ⟨[], []⟩⟩

/-- The decoder at content type `application/json` with no query `path`
always takes the structured-body branch. -/
theorem decode_json_none (raw : JStr) :
    decodeWriteBody "application/json".data none raw
      = (if raw = [] then DecodeOut.reply (err400 "Empty request body".data)
         else
           match jsonParse raw with
           | none => DecodeOut.thrown ⟨"Unexpected token in JSON".data⟩
           | some body =>
             match getField body "path".data with
             | .error e => DecodeOut.thrown e
             | .ok pathV =>
               if jsTruthy pathV then
                 match getFieldD body "data".data with
                 | none => DecodeOut.reply (err400 "Data is required".data)
                 | some Json.null => DecodeOut.reply (err400 "Data is required".data)
                 | some d =>
                   match structuredPayload d (getFieldD body "type".data)
                       (getFieldD body "encoding".data) with
                   | .error e => DecodeOut.thrown e
                   | .ok payload =>
                     DecodeOut.ok pathV payload
                       ((getFieldD body "type".data).getD (Json.str "text".data))
               else DecodeOut.reply (err400 "Path is required".data)) := by
  unfold decodeWriteBody
  rw [if_neg (show ¬(binaryCt "application/json".data = true) from by decide),
      if_neg (show ¬(ctInc "application/json".data "text/plain".data = true) from by decide),
      if_pos (show ctInc "application/json".data "application/json".data = true from by decide),
      if_neg (show ¬(jsTruthy (Option.map Json.str none) = true) from by decide)]

/-- A rejected structured body makes the decoder reply 400 or hand the
handlers a zero-byte payload. -/
theorem rejected_decode (raw : JStr) (h : jsonBodyRejected raw = true) :
    decodeWriteBody "application/json".data none raw
        = DecodeOut.reply (err400 "Empty request body".data) ∨
    decodeWriteBody "application/json".data none raw
        = DecodeOut.reply (err400 "Path is required".data) ∨
    decodeWriteBody "application/json".data none raw
        = DecodeOut.reply (err400 "Data is required".data) ∨
    (∃ pv tag, decodeWriteBody "application/json".data none raw
        = DecodeOut.ok pv [] tag) := by
  unfold jsonBodyRejected at h
  rw [decode_json_none]
  by_cases h0 : raw = []
  · rw [if_pos h0]
    exact Or.inl rfl
  · rw [if_neg h0] at h ⊢
    cases hp : jsonParse raw with
    | none =>
      rw [hp] at h
      dsimp only at h
      exact absurd h (by simp)
    | some body =>
      rw [hp] at h
      dsimp only at h ⊢
      cases hgf : getField body "path".data with
      | error e =>
        rw [hgf] at h
        dsimp only at h
        exact absurd h (by simp)
      | ok pv =>
        rw [hgf] at h
        dsimp only at h ⊢
        by_cases htr : jsTruthy pv = true
        · rw [if_pos htr] at h ⊢
          cases ho : getFieldD body "data".data with
          | none =>
            exact Or.inr (Or.inr (Or.inl rfl))
          | some d =>
            rw [ho] at h
            cases d with
            | null => exact Or.inr (Or.inr (Or.inl rfl))
            | bool b =>
              split at h
              · rename_i heq
                exact absurd heq (by simp)
              · rename_i heq
                exact absurd heq (by simp)
              · rename_i d2 hnull heq
                injection heq with heq2
                subst heq2
                split at h
                · exact absurd h (by simp)
                · rename_i payload hsp
                  have hlen : payload = [] := List.eq_nil_of_length_eq_zero (by simpa using h)
                  subst hlen
                  exact Or.inr (Or.inr (Or.inr ⟨pv, _, rfl⟩))
            | num n =>
              split at h
              · rename_i heq
                exact absurd heq (by simp)
              · rename_i heq
                exact absurd heq (by simp)
              · rename_i d2 hnull heq
                injection heq with heq2
                subst heq2
                split at h
                · exact absurd h (by simp)
                · rename_i payload hsp
                  have hlen : payload = [] := List.eq_nil_of_length_eq_zero (by simpa using h)
                  subst hlen
                  exact Or.inr (Or.inr (Or.inr ⟨pv, _, rfl⟩))
            | str s =>
              split at h
              · rename_i heq
                exact absurd heq (by simp)
              · rename_i heq
                exact absurd heq (by simp)
              · rename_i d2 hnull heq
                injection heq with heq2
                subst heq2
                split at h
                · exact absurd h (by simp)
                · rename_i payload hsp
                  have hlen : payload = [] := List.eq_nil_of_length_eq_zero (by simpa using h)
                  subst hlen
                  exact Or.inr (Or.inr (Or.inr ⟨pv, _, rfl⟩))
            | arr items =>
              split at h
              · rename_i heq
                exact absurd heq (by simp)
              · rename_i heq
                exact absurd heq (by simp)
              · rename_i d2 hnull heq
                injection heq with heq2
                subst heq2
                split at h
                · exact absurd h (by simp)
                · rename_i payload hsp
                  have hlen : payload = [] := List.eq_nil_of_length_eq_zero (by simpa using h)
                  subst hlen
                  exact Or.inr (Or.inr (Or.inr ⟨pv, _, rfl⟩))
            | obj fields =>
              split at h
              · rename_i heq
                exact absurd heq (by simp)
              · rename_i heq
                exact absurd heq (by simp)
              · rename_i d2 hnull heq
                injection heq with heq2
                subst heq2
                split at h
                · exact absurd h (by simp)
                · rename_i payload hsp
                  have hlen : payload = [] := List.eq_nil_of_length_eq_zero (by simpa using h)
                  subst hlen
                  exact Or.inr (Or.inr (Or.inr ⟨pv, _, rfl⟩))
        · rw [if_neg htr]
          exact Or.inr (Or.inl rfl)

/-- A non-rejected structured body makes the decoder throw or hand the
handlers a nonempty payload. -/
theorem accepted_decode (raw : JStr) (h : jsonBodyRejected raw = false) :
    (∃ e, decodeWriteBody "application/json".data none raw = DecodeOut.thrown e) ∨
    (∃ pv payload tag, decodeWriteBody "application/json".data none raw
        = DecodeOut.ok pv payload tag ∧ payload.length ≠ 0) := by
  unfold jsonBodyRejected at h
  rw [decode_json_none]
  by_cases h0 : raw = []
  · rw [if_pos h0] at h
    exact absurd h (by simp)
  · rw [if_neg h0] at h ⊢
    cases hp : jsonParse raw with
    | none =>
      exact Or.inl ⟨_, rfl⟩
    | some body =>
      rw [hp] at h
      dsimp only at h ⊢
      cases hgf : getField body "path".data with
      | error e =>
        exact Or.inl ⟨e, rfl⟩
      | ok pv =>
        rw [hgf] at h
        dsimp only at h ⊢
        by_cases htr : jsTruthy pv = true
        · rw [if_pos htr] at h ⊢
          cases ho : getFieldD body "data".data with
          | none =>
            rw [ho] at h
            dsimp only at h
            exact absurd h (by simp)
          | some d =>
            rw [ho] at h
            cases d with
            | null =>
              dsimp only at h
              exact absurd h (by simp)
            | bool b =>
              split at h
              · rename_i heq
                exact absurd heq (by simp)
              · rename_i heq
                exact absurd heq (by simp)
              · rename_i d2 hnull heq
                injection heq with heq2
                subst heq2
                split at h
                · rename_i e hsp
                  exact Or.inl ⟨e, rfl⟩
                · rename_i payload hsp
                  refine Or.inr ⟨pv, payload, _, rfl, ?_⟩
                  simpa using h
            | num n =>
              split at h
              · rename_i heq
                exact absurd heq (by simp)
              · rename_i heq
                exact absurd heq (by simp)
              · rename_i d2 hnull heq
                injection heq with heq2
                subst heq2
                split at h
                · rename_i e hsp
                  exact Or.inl ⟨e, rfl⟩
                · rename_i payload hsp
                  refine Or.inr ⟨pv, payload, _, rfl, ?_⟩
                  simpa using h
            | str s =>
              split at h
              · rename_i heq
                exact absurd heq (by simp)
              · rename_i heq
                exact absurd heq (by simp)
              · rename_i d2 hnull heq
                injection heq with heq2
                subst heq2
                split at h
                · rename_i e hsp
                  exact Or.inl ⟨e, rfl⟩
                · rename_i payload hsp
                  refine Or.inr ⟨pv, payload, _, rfl, ?_⟩
                  simpa using h
            | arr items =>
              split at h
              · rename_i heq
                exact absurd heq (by simp)
              · rename_i heq
                exact absurd heq (by simp)
              · rename_i d2 hnull heq
                injection heq with heq2
                subst heq2
                split at h
                · rename_i e hsp
                  exact Or.inl ⟨e, rfl⟩
                · rename_i payload hsp
                  refine Or.inr ⟨pv, payload, _, rfl, ?_⟩
                  simpa using h
            | obj fields =>
              split at h
              · rename_i heq
                exact absurd heq (by simp)
              · rename_i heq
                exact absurd heq (by simp)
              · rename_i d2 hnull heq
                injection heq with heq2
                subst heq2
                split at h
                · rename_i e hsp
                  exact Or.inl ⟨e, rfl⟩
                · rename_i payload hsp
                  refine Or.inr ⟨pv, payload, _, rfl, ?_⟩
                  simpa using h
        · rw [if_neg htr] at h
          exact absurd h (by simp)

/-- C8 (amended): for an `application/json` write/append request with no
`path` query parameter, the operation replies 400 exactly when the raw body
is empty, the parsed body's `path` is absent or falsy, its `data` is absent
or null, OR the decoded payload is zero bytes; and in every 400 case the
filesystem state is unchanged and no filesystem primitive is invoked. -/
theorem C8_structured_400 (base : JStr) (req : Request) (st : FsState)
    (hct : req.contentType = some "application/json".data)
    (hq : qlast (parseQuery req.url) "path".data = none) :
    (resultStatus (writeFileHandler base req st).result = some 400 ↔
      jsonBodyRejected req.body = true) ∧
    (resultStatus (appendFileHandler base req st).result = some 400 ↔
      jsonBodyRejected req.body = true) ∧
    (jsonBodyRejected req.body = true →
      (writeFileHandler base req st).state = st ∧
      (writeFileHandler base req st).calls = [] ∧
      (appendFileHandler base req st).state = st ∧
      (appendFileHandler base req st).calls = []) := by
  have hdec : decodeWriteBody (req.contentType.getD [])
      (qlast (parseQuery req.url) "path".data) req.body
      = decodeWriteBody "application/json".data none req.body := by
    rw [hct, hq]
    rfl
  cases hrej : jsonBodyRejected req.body with
  | true =>
    rcases rejected_decode req.body hrej with hD | hD | hD | ⟨pv, tag, hD⟩
    · have hwh : writeFileHandler base req st
          = ⟨.ok (err400 "Empty request body".data), st, []⟩ := by
        dsimp only [writeFileHandler]
        rw [hdec, hD]
      have hah : appendFileHandler base req st
          = ⟨.ok (err400 "Empty request body".data), st, []⟩ := by
        dsimp only [appendFileHandler]
        rw [hdec, hD]
      refine ⟨?_, ?_, fun _ => ?_⟩
      · rw [hwh]; simp [resultStatus, err400]
      · rw [hah]; simp [resultStatus, err400]
      · rw [hwh, hah]; exact ⟨rfl, rfl, rfl, rfl⟩
    · have hwh : writeFileHandler base req st
          = ⟨.ok (err400 "Path is required".data), st, []⟩ := by
        dsimp only [writeFileHandler]
        rw [hdec, hD]
      have hah : appendFileHandler base req st
          = ⟨.ok (err400 "Path is required".data), st, []⟩ := by
        dsimp only [appendFileHandler]
        rw [hdec, hD]
      refine ⟨?_, ?_, fun _ => ?_⟩
      · rw [hwh]; simp [resultStatus, err400]
      · rw [hah]; simp [resultStatus, err400]
      · rw [hwh, hah]; exact ⟨rfl, rfl, rfl, rfl⟩
    · have hwh : writeFileHandler base req st
          = ⟨.ok (err400 "Data is required".data), st, []⟩ := by
        dsimp only [writeFileHandler]
        rw [hdec, hD]
      have hah : appendFileHandler base req st
          = ⟨.ok (err400 "Data is required".data), st, []⟩ := by
        dsimp only [appendFileHandler]
        rw [hdec, hD]
      refine ⟨?_, ?_, fun _ => ?_⟩
      · rw [hwh]; simp [resultStatus, err400]
      · rw [hah]; simp [resultStatus, err400]
      · rw [hwh, hah]; exact ⟨rfl, rfl, rfl, rfl⟩
    · have hwh : writeFileHandler base req st
          = ⟨.ok (err400 "No data to write".data), st, []⟩ := by
        dsimp only [writeFileHandler]
        rw [hdec, hD]
        rfl
      have hah : appendFileHandler base req st
          = ⟨.ok (err400 "No data to append".data), st, []⟩ := by
        dsimp only [appendFileHandler]
        rw [hdec, hD]
        rfl
      refine ⟨?_, ?_, fun _ => ?_⟩
      · rw [hwh]; simp [resultStatus, err400]
      · rw [hah]; simp [resultStatus, err400]
      · rw [hwh, hah]; exact ⟨rfl, rfl, rfl, rfl⟩
  | false =>
    rcases accepted_decode req.body hrej with ⟨e, hD⟩ | ⟨pv, payload, tag, hD, hlen⟩
    · have hwh : writeFileHandler base req st = ⟨.error e, st, []⟩ := by
        dsimp only [writeFileHandler]
        rw [hdec, hD]
      have hah : appendFileHandler base req st = ⟨.error e, st, []⟩ := by
        dsimp only [appendFileHandler]
        rw [hdec, hD]
      refine ⟨?_, ?_, fun hcon => absurd hcon (by simp)⟩
      · rw [hwh]; simp [resultStatus]
      · rw [hah]; simp [resultStatus]
    · cases hr : resolveJs base pv with
      | error e =>
        have hwh : writeFileHandler base req st = ⟨.error e, st, []⟩ := by
          dsimp only [writeFileHandler]
          rw [hdec, hD]
          dsimp only
          rw [if_neg hlen, hr]
        have hah : appendFileHandler base req st = ⟨.error e, st, []⟩ := by
          dsimp only [appendFileHandler]
          rw [hdec, hD]
          dsimp only
          rw [if_neg hlen, hr]
        refine ⟨?_, ?_, fun hcon => absurd hcon (by simp)⟩
        · rw [hwh]; simp [resultStatus]
        · rw [hah]; simp [resultStatus]
      | ok full =>
        have hwh : writeFileHandler base req st
            = ⟨.ok ⟨200, some (Json.obj [
                ("message".data, Json.str "File written successfully".data),
                ("path".data, pv.getD Json.null), ("type".data, tag),
                ("size".data, Json.num payload.length)])⟩,
              fsWrite st full payload, [FsCall.writeFile full payload]⟩ := by
          dsimp only [writeFileHandler]
          rw [hdec, hD]
          dsimp only
          rw [if_neg hlen, hr]
        have hah : appendFileHandler base req st
            = ⟨.ok ⟨200, some (Json.obj [
                ("message".data, Json.str "Data appended successfully".data),
                ("path".data, pv.getD Json.null), ("type".data, tag),
                ("size".data, Json.num payload.length)])⟩,
              fsWrite st full ((fsRead st full).getD [] ++ payload),
              [FsCall.appendFile full payload]⟩ := by
          dsimp only [appendFileHandler]
          rw [hdec, hD]
          dsimp only
          rw [if_neg hlen, hr]
        refine ⟨?_, ?_, fun hcon => absurd hcon (by simp)⟩
        · rw [hwh]; simp [resultStatus]
        · rw [hah]; simp [resultStatus]

theorem C8_witness :
    ((⟨"POST".data, "/writeFile".data, some "application/json".data, "1".data⟩ :
        Request).contentType = some "application/json".data) ∧
    qlast (parseQuery "/writeFile".data) "path".data = none ∧
    ((resultStatus (writeFileHandler "/data".data
        ⟨"POST".data, "/writeFile".data, some "application/json".data, "1".data⟩
        ⟨[], []⟩).result = some 400 ↔ jsonBodyRejected "1".data = true) ∧
    (resultStatus (appendFileHandler "/data".data
        ⟨"POST".data, "/writeFile".data, some "application/json".data, "1".data⟩
        ⟨[], []⟩).result = some 400 ↔ jsonBodyRejected "1".data = true) ∧
    (jsonBodyRejected "1".data = true →
      (writeFileHandler "/data".data
        ⟨"POST".data, "/writeFile".data, some "application/json".data, "1".data⟩
        ⟨[], []⟩).state = ⟨[], []⟩ ∧
      (writeFileHandler "/data".data
        ⟨"POST".data, "/writeFile".data, some "application/json".data, "1".data⟩
        ⟨[], []⟩).calls = [] ∧
      (appendFileHandler "/data".data
        ⟨"POST".data, "/writeFile".data, some "application/json".data, "1".data⟩
        ⟨[], []⟩).state = ⟨[], []⟩ ∧
      (appendFileHandler "/data".data
        ⟨"POST".data, "/writeFile".data, some "application/json".data, "1".data⟩
        ⟨[], []⟩).calls = [])) :=
  ⟨rfl, rfl, C8_structured_400 "/data".data
    ⟨"POST".data, "/writeFile".data, some "application/json".data, "1".data⟩
    ⟨[], []⟩ rfl rfl⟩

/-- C8 counterexample: a structured body whose `path` is present and truthy
and whose `data` is present and non-null (the empty string) still replies
400 — the original claim's "exactly when" enumeration misses the empty
decoded payload. -/
theorem C8_empty_string_data :
    jsonParse emptyDataRaw
      = some (Json.obj [("path".data, Json.str "a.txt".data),
          ("data".data, Json.str [])]) ∧
    emptyDataRaw ≠ [] ∧
    jsTruthy (getFieldD (Json.obj [("path".data, Json.str "a.txt".data),
        ("data".data, Json.str [])]) "path".data) = true ∧
    getFieldD (Json.obj [("path".data, Json.str "a.txt".data),
        ("data".data, Json.str [])]) "data".data = some (Json.str []) ∧
    Json.str [] ≠ Json.null ∧
    writeFileHandler "/data".data emptyDataReq ⟨[], []⟩
      = ⟨.ok (err400 "No data to write".data), ⟨[], []⟩, []⟩ :=
  ⟨rfl, by decide, rfl, rfl, fun h => Json.noConfusion h, rfl⟩

end FsBrowser
